import Mathlib

/-!
# amdgpu suspend-voltage workaround: a shallow embedding of `src/main.cpp`

The program is a single C++ translation unit.  It is embedded as follows.

* `class Array` becomes the structure `Array` with the three members of the
  class; a byte of freshly allocated storage is indeterminate (`none`) until
  something is stored in it.
* The operating system is a `World`: a fixed answer to every call the program
  can make (open, lseek, read, write, directory listing, text-file content,
  storage allocation).  The answers do not change during one run.
* Every call the program makes on the outside is recorded, in program order, as
  an `Action`; each function returns its C++ return value together with the
  list of actions it performed.
* The program catches no exception, so a throw ends the run; a function that
  can throw returns `Option`, `none` standing for the throw.  The throws
  modelled are those of `new uint8_t[size]` and of the constructor of the
  directory iterator.
* `ssize_t`, `off_t` and `int` values are `Int`; the program only compares and
  copies them.  The unsigned accumulator of the number parser is a `Nat` reduced
  modulo `2 ^ bits` after each arithmetic step.
* Text is a list of characters.  The program looks at bytes; every byte it tests
  for (white space, digits, letters, the sign, the prefix `card`) is ASCII, and a
  character outside ASCII fails each of these tests just as its bytes do.
-/

namespace AmdgpuWorkaround

/-! ## Byte buffer (`class Array`, main.cpp 42-100) -/

/-- One `uint8_t`. -/
abbrev Byte := Fin 256

/-- The members of `class Array`: `m_data` (`none` is `nullptr`, otherwise the
allocated cells, a cell being `none` while indeterminate), `m_capacity`, `m_size`. -/
structure Array where
  m_data : Option (List (Option Byte)) := none
  m_capacity : Int := 0
  m_size : Int := 0
  deriving DecidableEq, Repr

/-- `bool Array::allocate(ssize_t size)`.  `heap n` tells whether
`new uint8_t[n]` returns storage.  The `new` expression throws (`none`) when
`size` is negative (`std::bad_array_new_length`) and when the heap cannot serve
the request (`std::bad_alloc`); nothing has been assigned at that point, so the
object is unchanged. -/
def Array.allocate (a : Array) (heap : Int → Bool) (size : Int) : Option (Bool × Array) :=
  if a.m_capacity > 0 then some (false, a)
  else if size < 0 ∨ heap size = false then none
  else some (true, { a with m_data := some (List.replicate size.toNat none), m_capacity := size })

/-- `bool Array::set_size(ssize_t size)`. -/
def Array.set_size (a : Array) (size : Int) : Bool × Array :=
  if size < 0 ∨ size > a.m_capacity then (false, a)
  else (true, { a with m_size := size })

/-- `uint8_t *Array::data()`. -/
def Array.data (a : Array) : Option (List (Option Byte)) := a.m_data

/-- `ssize_t Array::size() const`. -/
def Array.size (a : Array) : Int := a.m_size

/-- `bool Array::empty() const`. -/
def Array.empty (a : Array) : Bool := decide (a.m_size ≤ 0)

/-- What `read(fd, data.data(), n)` does to the buffer: the transferred bytes
overwrite the first cells. -/
def Array.store (a : Array) (bytes : List Byte) : Array :=
  { a with m_data := a.m_data.map (fun cells => bytes.map some ++ cells.drop bytes.length) }

/-- The bytes a `write(fd, data.data(), data.size())` hands to the kernel. -/
def Array.payload (a : Array) : List (Option Byte) :=
  (a.data.getD []).take a.size.toNat

/-- A call on an `Array` object. -/
inductive ArrayCall where
  | allocate (n : Int)
  | set_size (k : Int)
  deriving DecidableEq, Repr

/-- The object after one call (`none`: the call threw, the object is unchanged). -/
def Array.call (a : Array) (heap : Int → Bool) : ArrayCall → Option Array
  | .allocate n => (a.allocate heap n).map Prod.snd
  | .set_size k => some (a.set_size k).2

/-- A sequence of calls on one object, ended by the first call that throws: the
object as the sequence leaves it, and whether every call returned. -/
def Array.calls (a : Array) (heap : Int → Bool) : List ArrayCall → Array × Bool
  | [] => (a, true)
  | c :: cs =>
    match a.call heap c with
    | none => (a, false)
    | some b => b.calls heap cs

/-! ## Formatted input (`f >> hex >> x`, `f >> enable`)

The extraction operators of `std::istream` as implemented by libstdc++
(`num_get::_M_extract_int`, "C" locale, no digit grouping).  What the claims
depend on is fixed by the C++ standard (since C++11): a field without a digit
stores 0, a field out of range stores the largest or smallest value of the
type, and a `bool` field other than 0 and 1 stores `true`; in each of these
cases `failbit` is set, which the program never tests. -/

/-- `isspace` in the "C" locale. -/
def isspace (c : Char) : Bool :=
  c.toNat = 32 || (9 ≤ c.toNat && c.toNat ≤ 13)

/-- `isdigit` in the "C" locale. -/
def isdigit (c : Char) : Bool :=
  48 ≤ c.toNat && c.toNat ≤ 57

/-- The stream sentry with `skipws` set: leading white space is discarded. -/
def skipws : List Char → List Char
  | [] => []
  | c :: cs => if isspace c then skipws cs else c :: cs

/-- `_M_find`: the value of `c` as a digit of the base, if it is one. -/
def digit_of (base : Nat) (c : Char) : Option Nat :=
  if base ≤ 10 then
    if 48 ≤ c.toNat ∧ c.toNat < 48 + base then some (c.toNat - 48) else none
  else if 48 ≤ c.toNat ∧ c.toNat ≤ 57 then some (c.toNat - 48)
  else if 97 ≤ c.toNat ∧ c.toNat ≤ 102 then some (10 + (c.toNat - 97))
  else if 65 ≤ c.toNat ∧ c.toNat ≤ 70 then some (10 + (c.toNat - 65))
  else none

/-- The loop over leading zeros and the `0x` marker.  Arguments and result are
the rest of the input, `__found_zero` and `__sep_pos`. -/
def leading (base : Nat) : List Char → Bool → Nat → List Char × Bool × Nat
  | [], found_zero, sep_pos => ([], found_zero, sep_pos)
  | c :: cs, found_zero, sep_pos =>
    if c = '0' ∧ (found_zero = false ∨ base = 10) then
      leading base cs true (sep_pos + 1)
    else if found_zero = true ∧ (c = 'x' ∨ c = 'X') then
      if base = 16 then (cs, false, 0) else (c :: cs, found_zero, sep_pos)
    else (c :: cs, found_zero, sep_pos)

/-- The digit loop.  The state is `__result`, `__testoverflow`, `__sep_pos`;
`max` is `__max` and `bits` the width of the unsigned accumulator. -/
def accumulate (base max bits : Nat) : List Char → Nat × Bool × Nat → Nat × Bool × Nat
  | [], st => st
  | c :: cs, (result, overflow, sep_pos) =>
    match digit_of base c with
    | none => (result, overflow, sep_pos)
    | some digit =>
      if result > max / base then
        accumulate base max bits cs (result, true, sep_pos)
      else
        let r := (result * base) % 2 ^ bits
        accumulate base max bits cs
          ((r + digit) % 2 ^ bits, overflow || decide (r > max - digit), sep_pos + 1)

/-- `num_get::_M_extract_int` for a type of `bits` bits: the value it stores.
No digit: 0.  Out of range: the largest (or, for a negative signed field, the
smallest) value of the type. -/
def extract_int (base bits : Nat) (is_signed : Bool) (input : List Char) : Int :=
  let negative : Bool := input.head? = some '-'
  let s1 := if input.head? = some '-' ∨ input.head? = some '+' then input.tail else input
  let l := leading base s1 false 0
  let type_max : Nat := if is_signed then 2 ^ (bits - 1) - 1 else 2 ^ bits - 1
  let max : Nat := if negative ∧ is_signed then 2 ^ (bits - 1) else type_max
  let r := accumulate base max bits l.1 (0, false, l.2.2)
  if r.2.2 = 0 ∧ l.2.1 = false then 0
  else if r.2.1 then (if negative ∧ is_signed then -(2 ^ (bits - 1) : Int) else (type_max : Int))
  else if negative then
    (if is_signed then -(r.1 : Int) else (((2 ^ bits - r.1) % 2 ^ bits : Nat) : Int))
  else (r.1 : Int)

/-- `f >> hex >> x` (base 16) or `f >> x` (base 10) for an unsigned `x` of
`bits` bits holding `init`: when only white space is left the sentry fails and
`x` keeps its value. -/
def extract_unsigned (base bits : Nat) (init : Nat) (content : List Char) : Nat :=
  match skipws content with
  | [] => init
  | s => (extract_int base bits false s).toNat

/-- `f >> enable` for a `bool` without `boolalpha`: a `long` is extracted;
0 stores `false`, 1 stores `true`, anything else stores `true` (and sets
`failbit`, which the program does not look at). -/
def extract_bool (init : Bool) (content : List Char) : Bool :=
  match skipws content with
  | [] => init
  | s =>
    let l := extract_int 10 64 true s
    if l = 0 then false else if l = 1 then true else true

/-! ## The outside world -/

/-- The access mode of `open`. -/
inductive OpenFlag where
  | O_RDONLY
  | O_WRONLY
  deriving DecidableEq, Repr

/-- The `whence` of `lseek`. -/
inductive Whence where
  | SEEK_SET
  | SEEK_END
  deriving DecidableEq, Repr

/-- A call the program makes on the outside.  A descriptor is named by the path
it was opened on. -/
inductive Action where
  | ifstream_open (path : String)
  | ifstream_extract (path : String)
  | directory_iterator (path : String)
  | is_directory (path : String)
  | sys_open (path : String) (flag : OpenFlag)
  | lseek (path : String) (offset : Int) (whence : Whence)
  | read (path : String) (count : Int)
  | write (path : String) (payload : List (Option Byte))
  | close (path : String)
  | system (command : String)
  | cerr (line : String)
  deriving DecidableEq, Repr

/-- The answers of the operating system.
* `ifstream p`: the content of text file `p`, `none` when it cannot be opened;
* `directory_iterator p`: the file names of the entries of `p` in iteration
  order, `none` when the constructor throws;
* `is_directory p`: `entry.is_directory()`;
* `sys_open p flag`: whether `open` returns a descriptor (not negative);
* `lseek_end p`, `lseek_set p`: the results of `lseek(fd, 0, SEEK_END)` and
  `lseek(fd, 0, SEEK_SET)`;
* `read p count`: `none` for the result -1, otherwise the bytes on offer, of
  which at most `count` are transferred;
* `write p payload`: the result of `write`;
* `operator_new n`: whether `new uint8_t[n]` returns storage (`false`: it
  throws `std::bad_alloc`). -/
structure World where
  ifstream : String → Option String
  directory_iterator : String → Option (List String)
  is_directory : String → Bool
  sys_open : String → OpenFlag → Bool
  lseek_end : String → Int
  lseek_set : String → Int
  read : String → Int → Option (List Byte)
  write : String → List (Option Byte) → Int
  operator_new : Int → Bool

/-! ## Sysfs accessors (main.cpp 102-187) -/

/-- The path of the feature-mask parameter. -/
def ppfeaturemask_path : String := "/sys/module/amdgpu/parameters/ppfeaturemask"

/-- `static bool has_pp_override_mask()`. -/
def has_pp_override_mask (w : World) : Bool × List Action :=
  match w.ifstream ppfeaturemask_path with
  | none => (false, [.ifstream_open ppfeaturemask_path])
  | some content =>
    let ppfeaturemask := extract_unsigned 16 32 0 content.data
    (decide (ppfeaturemask &&& 0x4000 ≠ 0),
      [.ifstream_open ppfeaturemask_path, .ifstream_extract ppfeaturemask_path])

/-- `static bool is_vendor_amd(const string &path)`. -/
def is_vendor_amd (w : World) (path : String) : Bool × List Action :=
  match w.ifstream (path ++ "/vendor") with
  | none => (false, [.ifstream_open (path ++ "/vendor")])
  | some content =>
    let vendor_id := extract_unsigned 16 16 0 content.data
    (decide (vendor_id = 0x1002),
      [.ifstream_open (path ++ "/vendor"), .ifstream_extract (path ++ "/vendor")])

/-- `static bool is_enabled(const string &path)`. -/
def is_enabled (w : World) (path : String) : Bool × List Action :=
  match w.ifstream (path ++ "/enable") with
  | none => (false, [.ifstream_open (path ++ "/enable")])
  | some content =>
    (extract_bool false content.data,
      [.ifstream_open (path ++ "/enable"), .ifstream_extract (path ++ "/enable")])

/-- The one byte of the string `"r"`. -/
def byte_r : Byte := 114

/-- `static bool reset_clk_voltage(const string &path)`. -/
def reset_clk_voltage (w : World) (path : String) : Bool × List Action :=
  let file := path ++ "/pp_od_clk_voltage"
  if w.sys_open file .O_WRONLY = false then (false, [.sys_open file .O_WRONLY])
  else
    let write_size := w.write file [some byte_r]
    (decide (write_size = 1),
      [.sys_open file .O_WRONLY, .write file [some byte_r], .close file])

/-- The bytes a `read(fd, buf, size)` transfers. -/
def bytes_read (w : World) (file : String) (size : Int) : List Byte :=
  match w.read file size with
  | none => []
  | some bytes => bytes.take size.toNat

/-- The result of `read(fd, buf, size)`. -/
def read_result (w : World) (file : String) (size : Int) : Int :=
  match w.read file size with
  | none => -1
  | some bytes => ((bytes.take size.toNat).length : Int)

/-- `static Array fetch_pp_table(const string &path)`; `none` when
`data.allocate(size)` throws, which happens after the two seeks and before the
read.  No handler exists for the exception, so the run ends in `std::terminate`
and no closing of the descriptor is recorded after the throw. -/
def fetch_pp_table (w : World) (path : String) : Option Array × List Action :=
  let file := path ++ "/pp_table"
  let data : Array := {}
  if w.sys_open file .O_RDONLY = false then (some data, [.sys_open file .O_RDONLY])
  else
    let size := w.lseek_end file
    if size ≤ 0 then
      (some data, [.sys_open file .O_RDONLY, .lseek file 0 .SEEK_END, .close file])
    else if w.lseek_set file ≠ 0 then
      (some data, [.sys_open file .O_RDONLY, .lseek file 0 .SEEK_END,
        .lseek file 0 .SEEK_SET, .close file])
    else
      match data.allocate w.operator_new size with
      | none =>
        (none, [.sys_open file .O_RDONLY, .lseek file 0 .SEEK_END, .lseek file 0 .SEEK_SET])
      | some (_, allocated) =>
        let size_read := read_result w file size
        let filled := allocated.store (bytes_read w file size)
        let acts : List Action := [.sys_open file .O_RDONLY, .lseek file 0 .SEEK_END,
          .lseek file 0 .SEEK_SET, .read file size, .close file]
        if size_read ≤ 0 then (some filled, acts)
        else (some (filled.set_size size_read).2, acts)

/-- `static bool upload_pp_table(const string &path, const Array &data)`. -/
def upload_pp_table (w : World) (path : String) (data : Array) : Bool × List Action :=
  if data.empty then (false, [])
  else
    let file := path ++ "/pp_table"
    if w.sys_open file .O_WRONLY = false then (false, [.sys_open file .O_WRONLY])
    else
      let write_size := w.write file data.payload
      (decide (write_size = data.size),
        [.sys_open file .O_WRONLY, .write file data.payload, .close file])

/-! ## Mode controller (`main`, main.cpp 189-277) -/

/-- `enum class Mode`. -/
inductive Mode where
  | UNKNOWN
  | BEFORE_SUSPEND
  | AFTER_RESUME
  deriving DecidableEq, Repr

/-- The directory `main` iterates over. -/
def drm_dir : String := "/sys/class/drm"

/-- `entry.path()` of the entry with the given file name. -/
def entry_path (name : String) : String := drm_dir ++ "/" ++ name

/-- `device_path` of the entry with the given file name. -/
def device_path (name : String) : String := entry_path name ++ "/device"

/-- The command that pauses CoreCtrl. -/
def pause_cmd : String := "killall corectrl_helper -SIGSTOP 2> /dev/null"

/-- The command that resumes CoreCtrl. -/
def resume_cmd : String := "killall corectrl_helper -SIGCONT 2> /dev/null"

/-- The two name tests of the loop body (main.cpp 218-228): the first four
characters are `card`, and `find_if` finds no non-digit in the rest. -/
def name_filter (name : String) : Bool :=
  (name.data.take 4 == "card".data) &&
    ((name.data.drop 4).find? (fun c => !isdigit c)).isNone

/-- The line written to `cerr` after a reset. -/
def reset_line (ret : Bool) (name : String) : String :=
  "Reset clock and voltage " ++ (if ret then "succeeded" else "failed") ++ " for " ++ name

/-- The line written to `cerr` after an upload. -/
def upload_line (ret : Bool) (name : String) : String :=
  "PP table upload " ++ (if ret then "succeeded" else "failed") ++ " for " ++ name

/-- One pass through the body of the `for` loop, for the entry with the given
file name: the new value of `once` (`none`: an exception left the body) and
the actions performed. -/
def process_entry (w : World) (mode : Mode) (once : Bool) (name : String) :
    Option Bool × List Action :=
  let a0 : List Action := [.is_directory (entry_path name)]
  if w.is_directory (entry_path name) = false then (some once, a0)
  else if name_filter name = false then (some once, a0)
  else
    let v := is_vendor_amd w (device_path name)
    if v.1 = false then (some once, a0 ++ v.2)
    else
      let e := is_enabled w (device_path name)
      if e.1 = false then (some once, a0 ++ v.2 ++ e.2)
      else
        let f := fetch_pp_table w (device_path name)
        match f.1 with
        | none => (none, a0 ++ v.2 ++ e.2 ++ f.2)
        | some pp_table =>
          if pp_table.empty then (some once, a0 ++ v.2 ++ e.2 ++ f.2)
          else
            match mode with
            | .BEFORE_SUSPEND =>
              let s : List Action := if once = false then [.system pause_cmd] else []
              let r := reset_clk_voltage w (device_path name)
              (some true, a0 ++ v.2 ++ e.2 ++ f.2 ++ s ++ r.2 ++ [.cerr (reset_line r.1 name)])
            | .AFTER_RESUME =>
              let u := upload_pp_table w (device_path name) pp_table
              (some true, a0 ++ v.2 ++ e.2 ++ f.2 ++ u.2 ++ [.cerr (upload_line u.1 name)])
            | .UNKNOWN => (some once, a0 ++ v.2 ++ e.2 ++ f.2)

/-- The `for` loop over the directory entries, started with the given `once`. -/
def main_loop (w : World) (mode : Mode) : List String → Bool → Option Bool × List Action
  | [], once => (some once, [])
  | name :: rest, once =>
    match process_entry w mode once name with
    | (none, acts) => (none, acts)
    | (some once1, acts) =>
      let r := main_loop w mode rest once1
      (r.1, acts ++ r.2)

/-- `int main(int argc, char *argv[])`, with `argc = argv.length`.  The result
is the value returned (`none`: the run ended in an uncaught exception) and
the actions performed. -/
def main (w : World) (argv : List String) : Option Int × List Action :=
  if argv.length ≠ 2 then (some (-1), [])
  else
    let arg := argv.getD 1 ""
    let mode : Mode :=
      if arg = "suspend" then .BEFORE_SUSPEND
      else if arg = "resume" then .AFTER_RESUME
      else .UNKNOWN
    if mode = .UNKNOWN then (some (-1), [])
    else
      let g := has_pp_override_mask w
      if g.1 = false then (some 0, g.2)
      else
        match w.directory_iterator drm_dir with
        | none => (none, g.2 ++ [.directory_iterator drm_dir])
        | some names =>
          let l := main_loop w mode names false
          match l.1 with
          | none => (none, g.2 ++ [.directory_iterator drm_dir] ++ l.2)
          | some once =>
            let s : List Action :=
              if mode = .AFTER_RESUME ∧ once = true then [.system resume_cmd] else []
            (some 0, g.2 ++ [.directory_iterator drm_dir] ++ l.2 ++ s)

/-- The exit status the parent process sees: the low eight bits of the value
`main` returns. -/
def exit_status (code : Int) : Int := code % 256

/-! ## Notions used in the statements and proofs, and the worlds of the examples -/

/-- The invariant of the buffer: the logical size lies between 0 and the capacity. -/
def Array.inv (a : Array) : Prop := 0 ≤ a.m_size ∧ a.m_size ≤ a.m_capacity

/-- The number a digit string denotes, continuing from `start`. -/
def digits_value (base start : Nat) (ds : List Char) : Nat :=
  ds.foldl (fun acc c => acc * base + (digit_of base c).getD 0) start

/-- Every character of the string is a digit of the base. -/
def all_digits (base : Nat) (ds : List Char) : Prop := ∀ c ∈ ds, digit_of base c ≠ none

/-- The largest value of the integer type. -/
def type_max (bits : Nat) (is_signed : Bool) : Nat :=
  if is_signed then 2 ^ (bits - 1) - 1 else 2 ^ bits - 1

/-- A world in which nothing can be opened and the directory is empty. -/
def world_bare : World where
  ifstream := fun _ => none
  directory_iterator := fun _ => some []
  is_directory := fun _ => false
  sys_open := fun _ _ => false
  lseek_end := fun _ => -1
  lseek_set := fun _ => -1
  read := fun _ _ => none
  write := fun _ _ => -1
  operator_new := fun _ => true

/-- A world whose `enable` file holds `2` and whose feature mask does not fit
in 32 bits. -/
def world_odd_text : World :=
  { world_bare with
    ifstream := fun p =>
      if p = ppfeaturemask_path then some "0x1ffffffff"
      else if p = "/sys/class/drm/card0/device/enable" then some "2"
      else if p = "/sys/class/drm/card0/device/vendor" then some "0x11002"
      else none }

instance (base : Nat) (ds : List Char) : Decidable (all_digits base ds) := by
  unfold all_digits
  infer_instance

/-- A world with the kernel's default feature mask, in which bit 0x4000 is clear,
and a directory holding one card. -/
def world_default_mask : World :=
  { world_bare with
    ifstream := fun p => if p = ppfeaturemask_path then some "0xfff7bfff\n" else some "0x1002\n"
    directory_iterator := fun _ => some ["card0"]
    is_directory := fun _ => true }

/-- A world in which the table file of `card0` reports 8 bytes and a read
transfers 3. -/
def world_partial_read : World :=
  { world_bare with
    sys_open := fun _ _ => true
    lseek_end := fun _ => 8
    lseek_set := fun _ => 0
    read := fun _ _ => some [1, 2, 3]
    write := fun _ payload => payload.length }

/-- What `fetch_pp_table` returns when every step up to the read succeeded. -/
def fetched_table (w : World) (file : String) : Array :=
  { m_data := some ((bytes_read w file (w.lseek_end file)).map some ++
      (List.replicate (w.lseek_end file).toNat none).drop
        (bytes_read w file (w.lseek_end file)).length)
    m_capacity := w.lseek_end file
    m_size := read_result w file (w.lseek_end file) }

/-- The running of a shell command. -/
def Action.is_system : Action → Bool
  | .system _ => true
  | _ => false

/-- The opening of a file for writing, or a write. -/
def Action.is_write_access : Action → Bool
  | .sys_open _ .O_WRONLY => true
  | .write _ _ => true
  | _ => false

/-- The entry passes every filter of the loop body: it is a directory, its
name passes the name tests, `is_vendor_amd` and `is_enabled` return true, and
`fetch_pp_table` returns a buffer that is not empty. -/
def eligible (w : World) (name : String) : Bool :=
  w.is_directory (entry_path name) && name_filter name &&
    (is_vendor_amd w (device_path name)).1 && (is_enabled w (device_path name)).1 &&
    (match (fetch_pp_table w (device_path name)).1 with
      | some pp_table => !pp_table.empty
      | none => false)

/-- The buffer `fetch_pp_table` returns for the entry. -/
def entry_table (w : World) (name : String) : Array :=
  ((fetch_pp_table w (device_path name)).1).getD {}

/-- The actions of the filters of the loop body on one entry, up to the first
filter that rejects it. -/
def probe_actions (w : World) (name : String) : List Action :=
  .is_directory (entry_path name) ::
    (if w.is_directory (entry_path name) = false ∨ name_filter name = false then []
    else (is_vendor_amd w (device_path name)).2 ++
      (if (is_vendor_amd w (device_path name)).1 = false then []
      else (is_enabled w (device_path name)).2 ++
        (if (is_enabled w (device_path name)).1 = false then []
        else (fetch_pp_table w (device_path name)).2)))

/-- The mode `main` derives from its argument. -/
def mode_of (arg : String) : Mode :=
  if arg = "suspend" then .BEFORE_SUSPEND
  else if arg = "resume" then .AFTER_RESUME
  else .UNKNOWN

/-- The actions of `is_vendor_amd` on the device of entry `n`. -/
def vendor_action (n : String) (a : Action) : Prop :=
  a = .ifstream_open (device_path n ++ "/vendor") ∨
  a = .ifstream_extract (device_path n ++ "/vendor")

/-- The actions of `is_enabled` on the device of entry `n`. -/
def enable_action (n : String) (a : Action) : Prop :=
  a = .ifstream_open (device_path n ++ "/enable") ∨
  a = .ifstream_extract (device_path n ++ "/enable")

/-- The actions of `fetch_pp_table` on the device of entry `n` (the closing of
the table file is also the last action of an upload). -/
def fetch_action (w : World) (n : String) (a : Action) : Prop :=
  a = .sys_open (device_path n ++ "/pp_table") .O_RDONLY ∨
  a = .lseek (device_path n ++ "/pp_table") 0 .SEEK_END ∨
  a = .lseek (device_path n ++ "/pp_table") 0 .SEEK_SET ∨
  a = .read (device_path n ++ "/pp_table") (w.lseek_end (device_path n ++ "/pp_table")) ∨
  a = .close (device_path n ++ "/pp_table")

/-- The actions of the mode's branch on the device of entry `n`, whose fetched
table is `tbl`. -/
def branch_action (mode : Mode) (n : String) (tbl : Array) (a : Action) : Prop :=
  (∃ l, a = .cerr l) ∨
  (mode = .BEFORE_SUSPEND ∧
    (a = .system pause_cmd ∨
     a = .sys_open (device_path n ++ "/pp_od_clk_voltage") .O_WRONLY ∨
     a = .write (device_path n ++ "/pp_od_clk_voltage") [some byte_r] ∨
     a = .close (device_path n ++ "/pp_od_clk_voltage"))) ∨
  (mode = .AFTER_RESUME ∧
    (a = .sys_open (device_path n ++ "/pp_table") .O_WRONLY ∨
     a = .write (device_path n ++ "/pp_table") tbl.payload))

/-- The forms an action of the loop body on entry `n` can take in the given
mode, each under the filters that were passed before it. -/
def entry_action (w : World) (mode : Mode) (n : String) (a : Action) : Prop :=
  a = .is_directory (entry_path n) ∨
  (w.is_directory (entry_path n) = true ∧ name_filter n = true ∧
    (vendor_action n a ∨
     ((is_vendor_amd w (device_path n)).1 = true ∧
       (enable_action n a ∨
        ((is_enabled w (device_path n)).1 = true ∧
          (fetch_action w n a ∨
           ∃ tbl, (fetch_pp_table w (device_path n)).1 = some tbl ∧ tbl.empty = false ∧
             branch_action mode n tbl a))))))

/-- The file a write access is about. -/
def Action.write_path : Action → Option String
  | .sys_open p .O_WRONLY => some p
  | .write p _ => some p
  | _ => none

/-- A world with the gate active and the entries `card0`, `cardX`, `card2`,
`card1`, `version` under `/sys/class/drm`: `card0` and `card1` are enabled AMD
devices with a readable table, `card2` has another vendor id, `version` is
not a directory. -/
def world_two_cards : World where
  ifstream := fun p =>
    if p = ppfeaturemask_path then some "0xffffffff\n"
    else if p = "/sys/class/drm/card2/device/vendor" then some "0x10de\n"
    else if p = "/sys/class/drm/card0/device/vendor" then some "0x1002\n"
    else if p = "/sys/class/drm/card1/device/vendor" then some "0x1002\n"
    else if p = "/sys/class/drm/cardX/device/vendor" then some "0x1002\n"
    else if p = "/sys/class/drm/card0/device/enable" then some "1\n"
    else if p = "/sys/class/drm/card1/device/enable" then some "1\n"
    else if p = "/sys/class/drm/card2/device/enable" then some "1\n"
    else none
  directory_iterator := fun p =>
    if p = drm_dir then some ["card0", "cardX", "card2", "card1", "version"] else none
  is_directory := fun p => decide (p ≠ "/sys/class/drm/version")
  sys_open := fun _ _ => true
  lseek_end := fun _ => 4096
  lseek_set := fun _ => 0
  read := fun p _ => if p = "/sys/class/drm/card0/device/pp_table" then some [1, 2, 3] else some [7, 7]
  write := fun _ payload => payload.length
  operator_new := fun _ => true

/-- The digits of the base that the text begins with. -/
def digit_run (base : Nat) : List Char → List Char
  | [] => []
  | c :: cs => if digit_of base c ≠ none then c :: digit_run base cs else []

/-- The text after the digits it begins with. -/
def digit_rest (base : Nat) : List Char → List Char
  | [] => []
  | c :: cs => if digit_of base c ≠ none then digit_rest base cs else c :: cs

/-- The text without its `0x` or `0X`, which counts as a marker only in base 16
and only when a hexadecimal digit follows it. -/
def strip_marker (base : Nat) : List Char → List Char
  | z :: x :: d :: rest =>
    if base = 16 ∧ z = '0' ∧ (x = 'x' ∨ x = 'X') ∧ digit_of 16 d ≠ none then d :: rest
    else z :: x :: d :: rest
  | s => s

/-- The number a text begins with, read the way `strtol` reads it: white space,
an optional sign, in base 16 an optional `0x`, then the longest run of digits.
The result is the sign (`true` for a minus) and the magnitude; `none` when there
is no digit. -/
def written_number (base : Nat) (content : List Char) : Option (Bool × Nat) :=
  let s := skipws content
  let t := if s.head? = some '-' ∨ s.head? = some '+' then s.tail else s
  let ds := digit_run base (strip_marker base t)
  if ds = [] then none else some (decide (s.head? = some '-'), digits_value base 0 ds)

/-- The value an unsigned variable of `bits` bits holds after the extraction of a
written number: 0 when there is none, the largest value when the magnitude does
not fit, the magnitude negated modulo `2 ^ bits` after a minus sign, the
magnitude otherwise. -/
def stored_unsigned (bits : Nat) : Option (Bool × Nat) → Nat
  | none => 0
  | some (negative, v) =>
    if v > 2 ^ bits - 1 then 2 ^ bits - 1
    else if negative = true then (2 ^ bits - v) % 2 ^ bits
    else v

/-- The value a `bool` holds after the extraction of a written decimal number:
false when there is none or it is 0, true for every other number. -/
def stored_bool : Option (Bool × Nat) → Bool
  | none => false
  | some (_, v) => decide (v ≠ 0)

/-- The largest magnitude the digit loop accepts. -/
def loop_max (bits : Nat) (is_signed negative : Bool) : Nat :=
  if negative = true ∧ is_signed = true then 2 ^ (bits - 1) else type_max bits is_signed

/-- The value `_M_extract_int` stores for a field of the given sign and
magnitude that has at least one digit. -/
def stored_int (bits : Nat) (is_signed negative : Bool) (v : Nat) : Int :=
  if v > loop_max bits is_signed negative then
    (if negative = true ∧ is_signed = true then -(2 ^ (bits - 1) : Int)
      else ((type_max bits is_signed : Nat) : Int))
  else if negative = true then
    (if is_signed = true then -(v : Int) else (((2 ^ bits - v) % 2 ^ bits : Nat) : Int))
  else (v : Int)

/-- A world whose feature mask is the hexadecimal number `0x100000000`, in which
bit 0x4000 is clear, and whose directory holds one eligible card. -/
def world_wide_mask : World where
  ifstream := fun p =>
    if p = ppfeaturemask_path then some "0x100000000"
    else if p = "/sys/class/drm/card0/device/vendor" then some "0x1002\n"
    else if p = "/sys/class/drm/card0/device/enable" then some "1\n"
    else none
  directory_iterator := fun _ => some ["card0"]
  is_directory := fun _ => true
  sys_open := fun _ _ => true
  lseek_end := fun _ => 4096
  lseek_set := fun _ => 0
  read := fun _ _ => some [1, 2, 3]
  write := fun _ payload => payload.length
  operator_new := fun _ => true

/-- A world whose vendor file holds `-0xeffe`. -/
def world_signed_vendor : World :=
  { world_bare with
    ifstream := fun p =>
      if p = "/sys/class/drm/card0/device/vendor" then some "-0xeffe" else none }

/-- The three steps before the allocation succeed: the open, the seek to the end
(a positive size) and the seek back to the start. -/
def fetch_reaches_allocation (w : World) (file : String) : Prop :=
  w.sys_open file .O_RDONLY = true ∧ 0 < w.lseek_end file ∧ w.lseek_set file = 0

instance (w : World) (file : String) : Decidable (fetch_reaches_allocation w file) := by
  unfold fetch_reaches_allocation
  infer_instance

/-- The entry passes the four filters before the fetch, and `fetch_pp_table`
throws on its device. -/
def fetch_throws (w : World) (name : String) : Bool :=
  w.is_directory (entry_path name) && name_filter name &&
    (is_vendor_amd w (device_path name)).1 && (is_enabled w (device_path name)).1 &&
    ((fetch_pp_table w (device_path name)).1).isNone

/-- A world in which `card0` is eligible and the table of `card1`, an enabled
AMD card, reports a size the heap cannot serve. -/
def world_huge_table : World where
  ifstream := fun p =>
    if p = ppfeaturemask_path then some "0xffffffff\n"
    else if p = "/sys/class/drm/card0/device/vendor" then some "0x1002\n"
    else if p = "/sys/class/drm/card1/device/vendor" then some "0x1002\n"
    else if p = "/sys/class/drm/card0/device/enable" then some "1\n"
    else if p = "/sys/class/drm/card1/device/enable" then some "1\n"
    else none
  directory_iterator := fun _ => some ["card0", "card1"]
  is_directory := fun _ => true
  sys_open := fun _ _ => true
  lseek_end := fun p =>
    if p = "/sys/class/drm/card1/device/pp_table" then 9223372036854775807 else 4096
  lseek_set := fun _ => 0
  read := fun _ _ => some [1, 2, 3]
  write := fun _ payload => payload.length
  operator_new := fun n => decide (n ≤ 1048576)

/-! ## The byte buffer -/

theorem Array.set_size_true_iff (a : Array) (k : Int) :
    (a.set_size k).1 = true ↔ (0 ≤ k ∧ k ≤ a.m_capacity) := by
  unfold Array.set_size
  split <;> simp <;> omega

theorem Array.set_size_false_iff (a : Array) (k : Int) :
    (a.set_size k).1 = false ↔ (k < 0 ∨ a.m_capacity < k) := by
  unfold Array.set_size
  split <;> simp <;> omega

theorem Array.call_inv (a : Array) (heap : Int → Bool) (c : ArrayCall) (ha : a.inv) :
    ∀ b, a.call heap c = some b → b.inv := by
  obtain ⟨h0, h1⟩ := ha
  intro b hb
  cases c with
  | allocate n =>
    simp only [Array.call, Array.allocate] at hb
    split_ifs at hb with hcap hbad
    · simp only [Option.map_some', Option.some.injEq] at hb
      subst hb
      exact ⟨h0, h1⟩
    · simp at hb
    · simp only [Option.map_some', Option.some.injEq] at hb
      subst hb
      constructor
      · exact h0
      · show a.m_size ≤ n
        omega
  | set_size k =>
    simp only [Array.call, Option.some.injEq] at hb
    subst hb
    unfold Array.set_size
    split
    · exact ⟨h0, h1⟩
    · constructor
      · show 0 ≤ k
        omega
      · show k ≤ a.m_capacity
        omega

theorem Array.call_some (a : Array) (heap : Int → Bool) (c : ArrayCall)
    (hc : ∀ n, c = .allocate n → 0 ≤ n ∧ heap n = true) : ∃ b, a.call heap c = some b := by
  cases c with
  | allocate n =>
    obtain ⟨hn, hh⟩ := hc n rfl
    have hbad : ¬ (n < 0 ∨ heap n = false) := by
      rw [hh]
      simp only [Bool.true_eq_false, or_false]
      omega
    simp only [Array.call, Array.allocate, hbad, if_false]
    split_ifs <;> exact ⟨_, rfl⟩
  | set_size k => exact ⟨_, rfl⟩

theorem Array.calls_inv (heap : Int → Bool) (cs : List ArrayCall) :
    ∀ a : Array, a.inv → (a.calls heap cs).1.inv := by
  induction cs with
  | nil => intro a ha; exact ha
  | cons c cs ih =>
    intro a ha
    simp only [Array.calls]
    cases hb : a.call heap c with
    | none => exact ha
    | some b => exact ih b (Array.call_inv a heap c ha b hb)

theorem Array.calls_complete (heap : Int → Bool) (cs : List ArrayCall) :
    ∀ a : Array, (∀ n, ArrayCall.allocate n ∈ cs → 0 ≤ n ∧ heap n = true) →
      (a.calls heap cs).2 = true := by
  induction cs with
  | nil => intro a _; rfl
  | cons c cs ih =>
    intro a hn
    obtain ⟨b, hb⟩ := Array.call_some a heap c (fun n hc => hn n (by simp [hc]))
    simp only [Array.calls, hb]
    exact ih b (fun n hm => hn n (List.mem_cons_of_mem _ hm))

/-- C8: `set_size(k)` returns true exactly when `0 ≤ k ≤ capacity`; a successful
call sets the logical size to `k` and changes nothing else, a failed call changes
nothing.  Starting from a fresh `Array`, a sequence of `allocate(n)` calls
with `n ≥ 0` that the heap serves and of `set_size` calls runs to the end;
and every sequence of calls, also one ended by an `allocate` that throws,
leaves `0 ≤ size ≤ capacity`, with `empty()` true exactly when the size is 0. -/
theorem C8_set_size_contract_and_invariant :
    (∀ (a : Array) (k : Int),
      ((a.set_size k).1 = true ↔ (0 ≤ k ∧ k ≤ a.m_capacity)) ∧
      ((a.set_size k).1 = true →
        (a.set_size k).2.size = k ∧ (a.set_size k).2.m_capacity = a.m_capacity ∧
        (a.set_size k).2.m_data = a.m_data) ∧
      ((a.set_size k).1 = false → (k < 0 ∨ k > a.m_capacity) ∧ (a.set_size k).2 = a)) ∧
    (∀ (heap : Int → Bool) (cs : List ArrayCall),
      (∀ n, ArrayCall.allocate n ∈ cs → 0 ≤ n ∧ heap n = true) →
      (Array.calls {} heap cs).2 = true) ∧
    (∀ (heap : Int → Bool) (cs : List ArrayCall),
      0 ≤ (Array.calls {} heap cs).1.size ∧
      (Array.calls {} heap cs).1.size ≤ (Array.calls {} heap cs).1.m_capacity ∧
      ((Array.calls {} heap cs).1.empty = true ↔ (Array.calls {} heap cs).1.size = 0)) := by
  refine ⟨?_, ?_, ?_⟩
  · intro a k
    refine ⟨Array.set_size_true_iff a k, ?_, ?_⟩
    · intro h
      have hk := (Array.set_size_true_iff a k).1 h
      have : ¬ (k < 0 ∨ k > a.m_capacity) := by omega
      simp [Array.set_size, this, Array.size]
    · intro h
      have hk := (Array.set_size_false_iff a k).1 h
      have : (k < 0 ∨ k > a.m_capacity) := by omega
      exact ⟨this, by simp [Array.set_size, this]⟩
  · intro heap cs hcs
    exact Array.calls_complete heap cs {} hcs
  · intro heap cs
    obtain ⟨h0, h1⟩ := Array.calls_inv heap cs {} ⟨le_refl _, le_refl _⟩
    refine ⟨h0, h1, ?_⟩
    simp only [Array.empty, Array.size, decide_eq_true_eq]
    have h0' : 0 ≤ (Array.calls {} heap cs).1.m_size := h0
    omega

/-- C9 (code evaluated where the claim fails): after `allocate(0)` on a fresh
`Array` the capacity is still 0, so a second call `allocate(5)` also returns true
and replaces the storage (the heap serving both requests); for a first call with
`n > 0` that the heap serves, every later call returns false and changes
nothing. -/
theorem C9_allocate_after_zero_succeeds_again :
    (∃ a1 a2, Array.allocate {} (fun _ => true) 0 = some (true, a1) ∧ a1.m_capacity = 0 ∧
      a1.allocate (fun _ => true) 5 = some (true, a2) ∧ a2.m_capacity = 5 ∧
      a2.m_data ≠ a1.m_data) ∧
    (∀ (heap : Int → Bool) (n : Int), 0 < n → heap n = true →
      ∃ a1, Array.allocate {} heap n = some (true, a1) ∧ a1.m_capacity = n ∧
        ∀ (heap2 : Int → Bool) (m : Int), a1.allocate heap2 m = some (false, a1)) := by
  constructor
  · exact ⟨_, _, rfl, rfl, rfl, rfl, by decide⟩
  · intro heap n hn hh
    have h1 : ¬ (n < 0 ∨ heap n = false) := by
      rw [hh]
      simp only [Bool.true_eq_false, or_false]
      omega
    refine ⟨_, by simp only [Array.allocate]; simp [h1]; rfl, rfl, ?_⟩
    intro heap2 m
    simp [Array.allocate, hn]

/-! ## The number parser -/

theorem digits_value_ge (base : Nat) (hb : 1 ≤ base) :
    ∀ (ds : List Char) (s : Nat), s ≤ digits_value base s ds := by
  intro ds
  induction ds with
  | nil => intro s; exact le_refl _
  | cons c ds ih =>
    intro s
    have h1 := ih (s * base + (digit_of base c).getD 0)
    have h2 : s ≤ s * base := Nat.le_mul_of_pos_right s hb
    simp only [digits_value, List.foldl_cons] at h1 ⊢
    omega

theorem accumulate_overflow_stays (base max bits : Nat) :
    ∀ (l : List Char) (r sp : Nat), (accumulate base max bits l (r, true, sp)).2.1 = true := by
  intro l
  induction l with
  | nil => intro r sp; rfl
  | cons c cs ih =>
    intro r sp
    simp only [accumulate]
    cases digit_of base c with
    | none => rfl
    | some d =>
      simp only []
      split
      · exact ih _ _
      · simpa using ih _ _

theorem accumulate_sep_mono (base max bits : Nat) :
    ∀ (l : List Char) (r : Nat) (o : Bool) (sp : Nat),
      sp ≤ (accumulate base max bits l (r, o, sp)).2.2 := by
  intro l
  induction l with
  | nil => intro r o sp; exact le_refl _
  | cons c cs ih =>
    intro r o sp
    simp only [accumulate]
    cases digit_of base c with
    | none => exact le_refl _
    | some d =>
      simp only []
      split
      · exact ih _ _ _
      · exact le_trans (Nat.le_succ sp) (ih _ _ _)

theorem accumulate_stop (base max bits : Nat) (rest : List Char) (st : Nat × Bool × Nat)
    (hrest : ∀ c, rest.head? = some c → digit_of base c = none) :
    accumulate base max bits rest st = st := by
  obtain ⟨r, o, sp⟩ := st
  cases rest with
  | nil => rfl
  | cons c cs =>
    have := hrest c rfl
    simp [accumulate, this]

theorem accumulate_digits (base max bits : Nat) (hb : 1 ≤ base)
    (hfit : max / base * base + (base - 1) < 2 ^ bits) (hbm : base ≤ max + 1)
    (hdig : ∀ c d, digit_of base c = some d → d < base) :
    ∀ (ds rest : List Char) (r sp : Nat),
      (∀ c ∈ ds, digit_of base c ≠ none) →
      (∀ c, rest.head? = some c → digit_of base c = none) → r ≤ max →
      ((accumulate base max bits (ds ++ rest) (r, false, sp)).2.1 = true ↔
          max < digits_value base r ds) ∧
      ((accumulate base max bits (ds ++ rest) (r, false, sp)).2.1 = false →
          (accumulate base max bits (ds ++ rest) (r, false, sp)).1 = digits_value base r ds) := by
  intro ds
  induction ds with
  | nil =>
    intro rest r sp _ hrest hr
    simp only [List.nil_append, accumulate_stop base max bits rest _ hrest, digits_value,
      List.foldl_nil]
    constructor
    · constructor
      · intro h; cases h
      · intro h; omega
    · intro _; trivial
  | cons c ds ih =>
    intro rest r sp hds hrest hr
    have hc : digit_of base c ≠ none := hds c (List.mem_cons_self _ _)
    obtain ⟨d, hd⟩ := Option.ne_none_iff_exists'.1 hc
    have hdlt : d < base := hdig c d hd
    have hds1 : ∀ c ∈ ds, digit_of base c ≠ none := fun x hx => hds x (List.mem_cons_of_mem _ hx)
    have hval : digits_value base r (c :: ds) = digits_value base (r * base + d) ds := by
      simp [digits_value, hd]
    have hmod := Nat.div_add_mod max base
    have hmodlt : max % base < base := Nat.mod_lt _ hb
    have hcomm : base * (max / base) = max / base * base := Nat.mul_comm _ _
    rw [List.cons_append, hval]
    simp only [accumulate, hd]
    by_cases hbig : r > max / base
    · simp only [hbig, if_true]
      have hov := accumulate_overflow_stays base max bits (ds ++ rest) r sp
      have h1 : (max / base + 1) * base ≤ r * base := Nat.mul_le_mul_right _ hbig
      have h2 : (max / base + 1) * base = max / base * base + base := by ring
      have h3 := digits_value_ge base hb ds (r * base + d)
      constructor
      · constructor
        · intro _; omega
        · intro _; exact hov
      · intro h; rw [h] at hov; cases hov
    · simp only [hbig, if_false]
      have hle : r ≤ max / base := by omega
      have h1 : r * base ≤ max / base * base := Nat.mul_le_mul_right _ hle
      have hm1 : r * base % 2 ^ bits = r * base := Nat.mod_eq_of_lt (by omega)
      have hm2 : (r * base + d) % 2 ^ bits = r * base + d := Nat.mod_eq_of_lt (by omega)
      simp only [hm1, hm2, Bool.false_or]
      by_cases hov : r * base > max - d
      · simp only [hov, decide_True]
        have hst := accumulate_overflow_stays base max bits (ds ++ rest) (r * base + d) (sp + 1)
        have h3 := digits_value_ge base hb ds (r * base + d)
        constructor
        · constructor
          · intro _; omega
          · intro _; exact hst
        · intro h; rw [h] at hst; cases hst
      · simp only [hov, decide_False]
        exact ih rest (r * base + d) (sp + 1) hds1 hrest (by omega)

theorem accumulate_sep_pos (base max bits : Nat) (c : Char) (cs : List Char) (sp : Nat)
    (hc : digit_of base c ≠ none) :
    (accumulate base max bits (c :: cs) (0, false, sp)).2.2 ≠ 0 := by
  obtain ⟨d, hd⟩ := Option.ne_none_iff_exists'.1 hc
  simp only [accumulate, hd]
  have h0 : ¬ (0 > max / base) := Nat.not_lt_zero _
  simp only [h0, if_false]
  have := accumulate_sep_mono base max bits cs ((0 * base % 2 ^ bits + d) % 2 ^ bits)
    (false || decide (0 * base % 2 ^ bits > max - d)) (sp + 1)
  omega

theorem digit_of_lt (base : Nat) (hb : base = 10 ∨ base = 16) (c : Char) (d : Nat)
    (h : digit_of base c = some d) : d < base := by
  unfold digit_of at h
  rcases hb with hb | hb <;> subst hb <;> split_ifs at h <;>
    (simp only [Option.some.injEq] at h; omega)

theorem digit_of_zero (base : Nat) (hb : base = 10 ∨ base = 16) : digit_of base '0' = some 0 := by
  rcases hb with hb | hb <;> subst hb <;> decide

theorem not_zero_of_not_digit (base : Nat) (hb : base = 10 ∨ base = 16) (c : Char)
    (h : digit_of base c = none) : c ≠ '0' := by
  intro hc
  subst hc
  rw [digit_of_zero base hb] at h
  cases h

theorem not_space_of_digit (base : Nat) (hb : base = 10 ∨ base = 16) (c : Char)
    (h : digit_of base c ≠ none) : isspace c = false := by
  unfold digit_of at h
  unfold isspace
  rcases hb with hb | hb <;> subst hb <;> split_ifs at h <;>
    first | (simp; omega) | omega | simp at h

theorem not_sign_of_digit (base : Nat) (hb : base = 10 ∨ base = 16) (c : Char)
    (h : digit_of base c ≠ none) : c ≠ '-' ∧ c ≠ '+' := by
  constructor <;> intro hc <;> subst hc <;> rcases hb with hb | hb <;> subst hb <;>
    exact h (by decide)

theorem skipws_append (ws s : List Char) (hws : ∀ c ∈ ws, isspace c = true) :
    skipws (ws ++ s) = skipws s := by
  induction ws with
  | nil => rfl
  | cons c cs ih =>
    have hc := hws c (List.mem_cons_self _ _)
    simp only [List.cons_append, skipws, hc, if_true]
    exact ih (fun x hx => hws x (List.mem_cons_of_mem _ hx))

theorem skipws_cons (c : Char) (cs : List Char) (hc : isspace c = false) :
    skipws (c :: cs) = c :: cs := by
  simp [skipws, hc]

theorem leading_hex_marker (x : Char) (hx : x = 'x' ∨ x = 'X') (l : List Char) :
    leading 16 ('0' :: x :: l) false 0 = (l, false, 0) := by
  rcases hx with h | h <;> subst h <;> rfl

theorem leading_hex_stop (l : List Char)
    (h : ∀ c, l.head? = some c → c ≠ 'x' ∧ c ≠ 'X') :
    leading 16 l true 1 = (l, true, 1) := by
  cases l with
  | nil => rfl
  | cons c cs =>
    obtain ⟨hx, hX⟩ := h c rfl
    simp [leading, hx, hX]

theorem leading_no_zero (base : Nat) (l : List Char) (h : l.head? ≠ some '0') :
    leading base l false 0 = (l, false, 0) := by
  cases l with
  | nil => rfl
  | cons c cs =>
    have hc : c ≠ '0' := fun hc => h (by simp [hc])
    simp [leading, hc]

theorem digit_not_x (c : Char) (h : digit_of 16 c ≠ none) : c ≠ 'x' ∧ c ≠ 'X' := by
  constructor <;> intro hc <;> subst hc <;> exact h (by decide)

theorem digits_value_zero_cons (base : Nat) (hb : base = 10 ∨ base = 16) (ds : List Char) :
    digits_value base 0 ('0' :: ds) = digits_value base 0 ds := by
  simp [digits_value, digit_of_zero base hb]

theorem hex_fit (bits : Nat) (hbits : bits = 16 ∨ bits = 32) :
    type_max bits false / 16 * 16 + (16 - 1) < 2 ^ bits ∧ 16 ≤ type_max bits false + 1 := by
  rcases hbits with h | h <;> subst h <;> decide

theorem digit_run_append_rest (base : Nat) (l : List Char) :
    digit_run base l ++ digit_rest base l = l := by
  induction l with
  | nil => rfl
  | cons c cs ih =>
    simp only [digit_run, digit_rest]
    split_ifs
    · simp [ih]
    · rfl

theorem digit_run_all (base : Nat) (l : List Char) : all_digits base (digit_run base l) := by
  induction l with
  | nil => intro c hc; cases hc
  | cons c cs ih =>
    simp only [digit_run]
    split_ifs with h
    · intro x hx
      rcases List.mem_cons.1 hx with hx | hx
      · rw [hx]; exact h
      · exact ih x hx
    · intro x hx; cases hx

theorem digit_rest_head (base : Nat) (l : List Char) :
    ∀ c, (digit_rest base l).head? = some c → digit_of base c = none := by
  induction l with
  | nil => intro c hc; cases hc
  | cons d cs ih =>
    simp only [digit_rest]
    split_ifs with h
    · exact ih
    · intro c hc
      simp only [List.head?_cons, Option.some.injEq] at hc
      subst hc
      simpa using h

theorem digit_run_nil_of_head (base : Nat) (l : List Char)
    (h : ∀ c, l.head? = some c → digit_of base c = none) : digit_run base l = [] := by
  cases l with
  | nil => rfl
  | cons c cs => simp [digit_run, h c rfl]

theorem leading_sep (base : Nat) :
    ∀ (l : List Char) (fz : Bool) (sp : Nat), (fz = false → sp = 0) →
      ((leading base l fz sp).2.1 = false → (leading base l fz sp).2.2 = 0) := by
  intro l
  induction l with
  | nil => intro fz sp h; exact h
  | cons c cs ih =>
    intro fz sp h
    simp only [leading]
    split_ifs
    · exact ih true (sp + 1) (fun hf => by cases hf)
    · intro _; rfl
    · exact h
    · exact h

theorem extract_int_value (base bits : Nat) (is_signed : Bool) (hb : base = 10 ∨ base = 16)
    (input ds rest : List Char) (fz : Bool) (sp : Nat)
    (hfit : loop_max bits is_signed (decide (input.head? = some '-')) / base * base + (base - 1)
      < 2 ^ bits)
    (hbm : base ≤ loop_max bits is_signed (decide (input.head? = some '-')) + 1)
    (hlead : leading base
      (if input.head? = some '-' ∨ input.head? = some '+' then input.tail else input) false 0 =
        (ds ++ rest, fz, sp))
    (hsp : fz = false → sp = 0)
    (hds : all_digits base ds) (hrest : ∀ c, rest.head? = some c → digit_of base c = none) :
    extract_int base bits is_signed input =
      if fz = false ∧ ds = [] then 0
      else stored_int bits is_signed (decide (input.head? = some '-')) (digits_value base 0 ds) := by
  have hb1 : 1 ≤ base := by rcases hb with h | h <;> omega
  obtain ⟨hov, hval⟩ := accumulate_digits base
    (loop_max bits is_signed (decide (input.head? = some '-'))) bits hb1 hfit hbm
    (digit_of_lt base hb) ds rest 0 sp hds hrest (Nat.zero_le _)
  have hsep : ((accumulate base (loop_max bits is_signed (decide (input.head? = some '-'))) bits
      (ds ++ rest) (0, false, sp)).2.2 = 0 ∧ fz = false) ↔ (fz = false ∧ ds = []) := by
    constructor
    · rintro ⟨hs, hf⟩
      refine ⟨hf, ?_⟩
      cases ds with
      | nil => rfl
      | cons c cs =>
        exact absurd hs
          (accumulate_sep_pos base _ bits c (cs ++ rest) sp (hds c (List.mem_cons_self _ _)))
    · rintro ⟨hf, hd⟩
      subst hd
      refine ⟨?_, hf⟩
      rw [List.nil_append, accumulate_stop base _ bits rest _ hrest]
      exact hsp hf
  unfold extract_int
  simp only [hlead]
  have hmax : (if (decide (input.head? = some '-') = true ∧ is_signed = true) then 2 ^ (bits - 1)
      else if is_signed = true then 2 ^ (bits - 1) - 1 else 2 ^ bits - 1) =
      loop_max bits is_signed (decide (input.head? = some '-')) := by
    simp only [loop_max, type_max]
  rw [hmax]
  by_cases hfail : fz = false ∧ ds = []
  · rw [if_pos (hsep.2 hfail), if_pos hfail]
  · rw [if_neg (fun h => hfail (hsep.1 h)), if_neg hfail]
    by_cases ho : (accumulate base (loop_max bits is_signed (decide (input.head? = some '-'))) bits
        (ds ++ rest) (0, false, sp)).2.1 = true
    · have hgt := hov.1 ho
      simp only [ho, if_true, stored_int, hgt, type_max]
    · have hfalse : (accumulate base (loop_max bits is_signed (decide (input.head? = some '-')))
          bits (ds ++ rest) (0, false, sp)).2.1 = false := by simpa using ho
      have hle : ¬ loop_max bits is_signed (decide (input.head? = some '-')) <
          digits_value base 0 ds := fun h => ho (hov.2 h)
      simp only [hfalse, Bool.false_eq_true, if_false, stored_int, hle, hval hfalse]

theorem strip_marker_self (base : Nat) (t : List Char)
    (h : ∀ x d rest, t = '0' :: x :: d :: rest → (x = 'x' ∨ x = 'X') → digit_of 16 d ≠ none →
      base ≠ 16) :
    strip_marker base t = t := by
  match t with
  | [] => rfl
  | [_] => rfl
  | [_, _] => rfl
  | z :: x :: d :: rest =>
    simp only [strip_marker]
    split_ifs with hc
    · obtain ⟨hb, hz, hx, hd⟩ := hc
      subst hz
      exact absurd hb (h x d rest rfl hx hd)
    · rfl

theorem strip_marker_marker (x d : Char) (rest : List Char) (hx : x = 'x' ∨ x = 'X')
    (hd : digit_of 16 d ≠ none) : strip_marker 16 ('0' :: x :: d :: rest) = d :: rest := by
  simp [strip_marker, hx, hd]

theorem leading_hex (t : List Char) :
    ∃ ds rest fz sp, leading 16 t false 0 = (ds ++ rest, fz, sp) ∧ all_digits 16 ds ∧
      (∀ c, rest.head? = some c → digit_of 16 c = none) ∧
      digits_value 16 0 ds = digits_value 16 0 (digit_run 16 (strip_marker 16 t)) ∧
      (digit_run 16 (strip_marker 16 t) = [] → fz = false ∧ ds = []) := by
  cases t with
  | nil =>
    exact ⟨[], [], false, 0, rfl, (fun _ h => by cases h), (fun _ h => by cases h), rfl,
      fun _ => ⟨rfl, rfl⟩⟩
  | cons c cs =>
    by_cases hz : c = '0'
    · subst hz
      cases cs with
      | nil =>
        refine ⟨[], [], true, 1, rfl, (fun _ h => by cases h), (fun _ h => by cases h), ?_, ?_⟩
        · decide
        · intro h; revert h; decide
      | cons x cs1 =>
        by_cases hx : x = 'x' ∨ x = 'X'
        · have hxd : digit_of 16 x = none := by
            rcases hx with h | h <;> subst h <;> decide
          by_cases hd : ∃ d r, cs1 = d :: r ∧ digit_of 16 d ≠ none
          · obtain ⟨d, r, rfl, hdd⟩ := hd
            refine ⟨digit_run 16 (d :: r), digit_rest 16 (d :: r), false, 0, ?_,
              digit_run_all 16 _, digit_rest_head 16 _, ?_, ?_⟩
            · rw [digit_run_append_rest]
              exact leading_hex_marker x hx _
            · rw [strip_marker_marker x d r hx hdd]
            · rw [strip_marker_marker x d r hx hdd]
              intro h
              simp [digit_run, hdd] at h
          · have hhead : ∀ c, cs1.head? = some c → digit_of 16 c = none := by
              intro c hc
              by_contra hcon
              cases cs1 with
              | nil => cases hc
              | cons d r =>
                simp only [List.head?_cons, Option.some.injEq] at hc
                subst hc
                exact hd ⟨d, r, rfl, hcon⟩
            have hstrip : strip_marker 16 ('0' :: x :: cs1) = '0' :: x :: cs1 := by
              apply strip_marker_self
              intro x1 d rest heq _ hdd
              simp only [List.cons.injEq, true_and] at heq
              exact absurd ⟨d, rest, heq.2, hdd⟩ hd
            refine ⟨[], cs1, false, 0, leading_hex_marker x hx _, (fun _ h => by cases h),
              hhead, ?_, ?_⟩
            · rw [hstrip]
              have h0 : digit_of 16 '0' ≠ none := by decide
              simp [digit_run, h0, hxd, digits_value]
              decide
            · rw [hstrip]
              intro h
              have h0 : digit_of 16 '0' ≠ none := by decide
              simp [digit_run, h0] at h
        · have hstop : leading 16 ('0' :: x :: cs1) false 0 = (x :: cs1, true, 1) := by
            have := leading_hex_stop (x :: cs1) (by
              intro c hc
              simp only [List.head?_cons, Option.some.injEq] at hc
              subst hc
              exact ⟨fun h => hx (Or.inl h), fun h => hx (Or.inr h)⟩)
            simpa [leading] using this
          have hstrip : strip_marker 16 ('0' :: x :: cs1) = '0' :: x :: cs1 := by
            apply strip_marker_self
            intro x1 d rest heq hx1 _
            simp only [List.cons.injEq, true_and] at heq
            rw [← heq.1] at hx1
            exact absurd hx1 hx
          have h0 : digit_of 16 '0' ≠ none := by decide
          have hD : digit_run 16 ('0' :: x :: cs1) = '0' :: digit_run 16 (x :: cs1) := by
            simp only [digit_run, h0, if_true, ne_eq, not_false_eq_true]
          refine ⟨digit_run 16 (x :: cs1), digit_rest 16 (x :: cs1), true, 1, ?_,
            digit_run_all 16 _, digit_rest_head 16 _, ?_, ?_⟩
          · rw [digit_run_append_rest]
            exact hstop
          · rw [hstrip, hD, digits_value_zero_cons 16 (Or.inr rfl)]
          · rw [hstrip, hD]
            intro h
            cases h
    · have hstrip : strip_marker 16 (c :: cs) = c :: cs := by
        apply strip_marker_self
        intro x d rest heq _ _
        simp only [List.cons.injEq] at heq
        exact absurd heq.1 hz
      refine ⟨digit_run 16 (c :: cs), digit_rest 16 (c :: cs), false, 0, ?_,
        digit_run_all 16 _, digit_rest_head 16 _, ?_, ?_⟩
      · rw [digit_run_append_rest]
        exact leading_no_zero 16 _ (by simp [hz])
      · rw [hstrip]
      · rw [hstrip]
        intro h
        exact ⟨rfl, h⟩

theorem leading_dec (t : List Char) :
    ∀ (fz : Bool) (sp : Nat), ∃ ds rest fz1 sp1,
      leading 10 t fz sp = (ds ++ rest, fz1, sp1) ∧ all_digits 10 ds ∧
      (∀ c, rest.head? = some c → digit_of 10 c = none) ∧
      digits_value 10 0 ds = digits_value 10 0 (digit_run 10 t) ∧
      ((fz1 = true ∧ (fz = true ∨ digit_run 10 t ≠ [])) ∨
        (fz1 = fz ∧ ds = digit_run 10 t)) := by
  induction t with
  | nil =>
    intro fz sp
    exact ⟨[], [], fz, sp, rfl, (fun _ h => by cases h), (fun _ h => by cases h), rfl,
      Or.inr ⟨rfl, rfl⟩⟩
  | cons c cs ih =>
    intro fz sp
    by_cases hz : c = '0'
    · subst hz
      obtain ⟨ds, rest, fz1, sp1, hl, hd, hr, hv, hf⟩ := ih true (sp + 1)
      have h0 : digit_of 10 '0' ≠ none := by decide
      have hD : digit_run 10 ('0' :: cs) = '0' :: digit_run 10 cs := by
        simp only [digit_run, h0, if_true, ne_eq, not_false_eq_true]
      refine ⟨ds, rest, fz1, sp1, ?_, hd, hr, ?_, Or.inl ⟨?_, Or.inr ?_⟩⟩
      · simpa [leading] using hl
      · rw [hv, hD, digits_value_zero_cons 10 (Or.inl rfl)]
      · rcases hf with h | h
        · exact h.1
        · exact h.1
      · rw [hD]
        intro h
        cases h
    · refine ⟨digit_run 10 (c :: cs), digit_rest 10 (c :: cs), fz, sp, ?_,
        digit_run_all 10 _, digit_rest_head 10 _, rfl, Or.inr ⟨rfl, rfl⟩⟩
      rw [digit_run_append_rest]
      simp [leading, hz]

theorem stored_int_toNat (bits : Nat) (neg : Bool) (v : Nat) :
    (stored_int bits false neg v).toNat = stored_unsigned bits (some (neg, v)) := by
  simp only [stored_int, stored_unsigned, loop_max, type_max, Bool.false_eq_true, and_false,
    if_false]
  split_ifs <;> exact Int.toNat_ofNat _

theorem extract_unsigned_eq (bits : Nat) (hbits : bits = 16 ∨ bits = 32) (content : List Char) :
    extract_unsigned 16 bits 0 content = stored_unsigned bits (written_number 16 content) := by
  unfold extract_unsigned written_number
  cases hs : skipws content with
  | nil => rfl
  | cons c cs =>
    simp only []
    generalize ht : (if (c :: cs).head? = some '-' ∨ (c :: cs).head? = some '+'
      then (c :: cs).tail else c :: cs) = t
    obtain ⟨ds, rest, fz, sp, hl, hd, hr, hv, hnil⟩ := leading_hex t
    have hsp : fz = false → sp = 0 := by
      have := leading_sep 16 t false 0 (fun _ => rfl)
      rw [hl] at this
      exact this
    obtain ⟨hfit, hbm⟩ := hex_fit bits hbits
    have hlm : ∀ neg, loop_max bits false neg = type_max bits false := by
      intro neg
      simp [loop_max]
    rw [extract_int_value 16 bits false (Or.inr rfl) (c :: cs) ds rest fz sp
      (by rw [hlm]; exact hfit) (by rw [hlm]; exact hbm) (by rw [ht]; exact hl) hsp hd hr]
    by_cases hD : digit_run 16 (strip_marker 16 t) = []
    · rw [if_pos hD, if_pos (hnil hD)]
      rfl
    · rw [if_neg hD, ← hv]
      by_cases hfail : fz = false ∧ ds = []
      · rw [if_pos hfail, hfail.2]
        have hpos : 0 < 2 ^ bits := Nat.two_pow_pos bits
        simp [digits_value, stored_unsigned]
      · rw [if_neg hfail]
        exact stored_int_toNat bits _ _

theorem stored_int_long_eq_zero (neg : Bool) (v : Nat) : stored_int 64 true neg v = 0 ↔ v = 0 := by
  cases neg
  · have h1 : loop_max 64 true false = 9223372036854775807 := by decide
    have h2 : type_max 64 true = 9223372036854775807 := by decide
    simp only [stored_int, h1, h2, Bool.false_eq_true, false_and, if_false]
    split_ifs
    · constructor
      · intro h; norm_num at h
      · intro h; omega
    · exact Int.natCast_eq_zero
  · have h1 : loop_max 64 true true = 9223372036854775808 := by decide
    simp only [stored_int, h1, and_self, if_true]
    split_ifs
    · constructor
      · intro h; norm_num at h
      · intro h; omega
    · rw [neg_eq_zero]
      exact Int.natCast_eq_zero

theorem extract_bool_eq (content : List Char) :
    extract_bool false content = stored_bool (written_number 10 content) := by
  unfold extract_bool written_number
  cases hs : skipws content with
  | nil => rfl
  | cons c cs =>
    simp only []
    have hstrip : ∀ t, strip_marker 10 t = t := by
      intro t
      apply strip_marker_self
      intro _ _ _ _ _ _
      decide
    generalize ht : (if (c :: cs).head? = some '-' ∨ (c :: cs).head? = some '+'
      then (c :: cs).tail else c :: cs) = t
    obtain ⟨ds, rest, fz, sp, hl, hd, hr, hv, hf⟩ := leading_dec t false 0
    have hsp : fz = false → sp = 0 := by
      have := leading_sep 10 t false 0 (fun _ => rfl)
      rw [hl] at this
      exact this
    have hfit : ∀ neg, loop_max 64 true neg / 10 * 10 + (10 - 1) < 2 ^ 64 ∧
        10 ≤ loop_max 64 true neg + 1 := by
      intro neg
      cases neg <;> decide
    rw [extract_int_value 10 64 true (Or.inl rfl) (c :: cs) ds rest fz sp
      (hfit _).1 (hfit _).2 (by rw [ht]; exact hl) hsp hd hr, hstrip]
    by_cases hD : digit_run 10 t = []
    · have hnil : fz = false ∧ ds = [] := by
        rcases hf with ⟨_, h | h⟩ | ⟨h1, h2⟩
        · cases h
        · exact absurd hD h
        · exact ⟨h1, h2.trans hD⟩
      rw [if_pos hD, if_pos hnil]
      rfl
    · rw [if_neg hD]
      simp only [stored_bool, ← hv]
      by_cases hfail : fz = false ∧ ds = []
      · rw [if_pos hfail, hfail.2]
        simp [digits_value]
      · rw [if_neg hfail]
        by_cases h0 : digits_value 10 0 ds = 0
        · rw [if_pos ((stored_int_long_eq_zero _ _).2 h0)]
          simp [h0]
        · rw [if_neg ((stored_int_long_eq_zero _ _).not.2 h0)]
          simp [h0]

/-! ## Invocation and the gate -/

theorem has_pp_override_mask_missing (w : World) (h : w.ifstream ppfeaturemask_path = none) :
    has_pp_override_mask w = (false, [.ifstream_open ppfeaturemask_path]) := by
  simp [has_pp_override_mask, h]

theorem has_pp_override_mask_content (w : World) (content : String)
    (h : w.ifstream ppfeaturemask_path = some content) :
    has_pp_override_mask w =
      (decide (extract_unsigned 16 32 0 content.data &&& 0x4000 ≠ 0),
        [.ifstream_open ppfeaturemask_path, .ifstream_extract ppfeaturemask_path]) := by
  simp [has_pp_override_mask, h]

theorem is_vendor_amd_content (w : World) (path : String) (content : String)
    (h : w.ifstream (path ++ "/vendor") = some content) :
    (is_vendor_amd w path).1 = decide (extract_unsigned 16 16 0 content.data = 0x1002) := by
  simp [is_vendor_amd, h]

theorem is_enabled_content (w : World) (path : String) (content : String)
    (h : w.ifstream (path ++ "/enable") = some content) :
    (is_enabled w path).1 = extract_bool false content.data := by
  simp [is_enabled, h]

/-- C1: with an argument count other than 2, or an argument that is neither
`suspend` nor `resume`, `main` returns -1 (exit status 255, not zero) and
performs no action at all. -/
theorem C1_invalid_invocation_has_no_effect (w : World) (argv : List String)
    (h : argv.length ≠ 2 ∨
      ∃ a0 arg, argv = [a0, arg] ∧ arg ≠ "suspend" ∧ arg ≠ "resume") :
    (main w argv).1 = some (-1) ∧ exit_status (-1) ≠ 0 ∧ (main w argv).2 = [] := by
  have hs : exit_status (-1) ≠ 0 := by decide
  rcases h with h | ⟨a0, arg, rfl, h1, h2⟩
  · simp [main, h, hs]
  · simp [main, h1, h2, hs]

/-- C1 at a concrete input: the argument `hibernate`. -/
theorem C1_witness :
    (["amdgpu-workaround", "hibernate"].length ≠ 2 ∨
      ∃ a0 arg, ["amdgpu-workaround", "hibernate"] = [a0, arg] ∧
        arg ≠ "suspend" ∧ arg ≠ "resume") ∧
    (main world_odd_text ["amdgpu-workaround", "hibernate"]).1 = some (-1) ∧
    exit_status (-1) ≠ 0 ∧ (main world_odd_text ["amdgpu-workaround", "hibernate"]).2 = [] :=
  ⟨Or.inr ⟨_, _, rfl, by decide, by decide⟩,
    C1_invalid_invocation_has_no_effect world_odd_text ["amdgpu-workaround", "hibernate"]
      (Or.inr ⟨_, _, rfl, by decide, by decide⟩)⟩

theorem has_pp_override_mask_result (w : World) :
    (has_pp_override_mask w).1 =
      match w.ifstream ppfeaturemask_path with
      | none => false
      | some content =>
        decide (stored_unsigned 32 (written_number 16 content.data) &&& 0x4000 ≠ 0) := by
  unfold has_pp_override_mask
  cases w.ifstream ppfeaturemask_path with
  | none => rfl
  | some content => simp only [extract_unsigned_eq 32 (Or.inr rfl)]

theorem is_vendor_amd_result (w : World) (path : String) :
    (is_vendor_amd w path).1 =
      match w.ifstream (path ++ "/vendor") with
      | none => false
      | some content => decide (stored_unsigned 16 (written_number 16 content.data) = 0x1002) := by
  unfold is_vendor_amd
  cases w.ifstream (path ++ "/vendor") with
  | none => rfl
  | some content => simp only [extract_unsigned_eq 16 (Or.inl rfl)]

theorem is_enabled_result (w : World) (path : String) :
    (is_enabled w path).1 =
      match w.ifstream (path ++ "/enable") with
      | none => false
      | some content => stored_bool (written_number 10 content.data) := by
  unfold is_enabled
  cases w.ifstream (path ++ "/enable") with
  | none => rfl
  | some content => simp only [extract_bool_eq]

/-- C2 (the claim fails here): the feature mask `0x100000000` is a hexadecimal
integer whose bit 0x4000 is clear, yet the suspend run lists the directory,
pauses CoreCtrl and writes the reset byte to `card0`. -/
theorem C2_counterexample :
    world_wide_mask.ifstream ppfeaturemask_path = some "0x100000000" ∧
    written_number 16 "0x100000000".data = some (false, 0x100000000) ∧
    0x100000000 &&& 0x4000 = 0 ∧
    Action.directory_iterator drm_dir ∈
      (main world_wide_mask ["amdgpu-workaround", "suspend"]).2 ∧
    Action.system pause_cmd ∈ (main world_wide_mask ["amdgpu-workaround", "suspend"]).2 ∧
    Action.write "/sys/class/drm/card0/device/pp_od_clk_voltage" [some byte_r] ∈
      (main world_wide_mask ["amdgpu-workaround", "suspend"]).2 := by
  refine ⟨by decide, by decide, by decide, by decide, by decide, by decide⟩

/-- C2 (amended): with argument `suspend` or `resume`, when the feature-mask
file cannot be opened, or bit 0x4000 is clear in the value the extraction stores
in the 32-bit variable (0 when the content begins with no hexadecimal number,
the number when it is at most `0xffffffff`, `0xffffffff` when its magnitude is
larger, the magnitude negated modulo `2 ^ 32` after a minus sign), `main`
returns 0 and every action it performs is the opening or the reading of the
feature-mask file: no directory is listed, no device file is opened, no command
is run. -/
theorem C2_inactive_gate_touches_no_device (w : World) (a0 arg : String)
    (hmode : arg = "suspend" ∨ arg = "resume")
    (hgate : w.ifstream ppfeaturemask_path = none ∨
      ∃ content, w.ifstream ppfeaturemask_path = some content ∧
        stored_unsigned 32 (written_number 16 content.data) &&& 0x4000 = 0) :
    (main w [a0, arg]).1 = some 0 ∧
    ∀ a ∈ (main w [a0, arg]).2,
      a = .ifstream_open ppfeaturemask_path ∨ a = .ifstream_extract ppfeaturemask_path := by
  have hm : (if arg = "suspend" then Mode.BEFORE_SUSPEND
      else if arg = "resume" then Mode.AFTER_RESUME else Mode.UNKNOWN) ≠ Mode.UNKNOWN := by
    rcases hmode with h | h <;> subst h <;> decide
  rcases hgate with h | ⟨content, h, hbit⟩
  · have hg := has_pp_override_mask_missing w h
    simp [main, hm, hg]
  · have hg := has_pp_override_mask_content w content h
    rw [extract_unsigned_eq 32 (Or.inr rfl)] at hg
    simp [main, hm, hg, hbit]

/-- C2 at a concrete input: the kernel's default mask `0xfff7bfff`. -/
theorem C2_witness :
    ("suspend" = "suspend" ∨ "suspend" = "resume") ∧
    (world_default_mask.ifstream ppfeaturemask_path = none ∨
      ∃ content, world_default_mask.ifstream ppfeaturemask_path = some content ∧
        stored_unsigned 32 (written_number 16 content.data) &&& 0x4000 = 0) ∧
    (main world_default_mask ["amdgpu-workaround", "suspend"]).1 = some 0 ∧
    ∀ a ∈ (main world_default_mask ["amdgpu-workaround", "suspend"]).2,
      a = .ifstream_open ppfeaturemask_path ∨ a = .ifstream_extract ppfeaturemask_path :=
  ⟨Or.inl rfl, Or.inr ⟨"0xfff7bfff\n", by decide, by decide⟩,
    C2_inactive_gate_touches_no_device world_default_mask "amdgpu-workaround" "suspend"
      (Or.inl rfl) (Or.inr ⟨"0xfff7bfff\n", by decide, by decide⟩)⟩

/-! ## The accessors on malformed content -/

/-- C10 (the claim fails here): an `enable` file holding `2` makes `is_enabled`
return true; a feature mask `0x1ffffffff`, which does not fit in 32 bits, makes
`has_pp_override_mask` return true; a vendor file holding `-0xeffe`, which is no
16-bit vendor id, makes `is_vendor_amd` return true. -/
theorem C10_counterexample :
    world_odd_text.ifstream ("/sys/class/drm/card0/device" ++ "/enable") = some "2" ∧
    (is_enabled world_odd_text "/sys/class/drm/card0/device").1 = true ∧
    world_odd_text.ifstream ppfeaturemask_path = some "0x1ffffffff" ∧
    (has_pp_override_mask world_odd_text).1 = true ∧
    world_signed_vendor.ifstream ("/sys/class/drm/card0/device" ++ "/vendor") = some "-0xeffe" ∧
    (is_vendor_amd world_signed_vendor "/sys/class/drm/card0/device").1 = true := by
  refine ⟨by decide, by decide, by decide, by decide, by decide, by decide⟩

/-- C10 (amended): each accessor returns false when its file cannot be opened and
when the content begins with no number (`written_number`: white space, an
optional sign, for the hexadecimal files an optional `0x` before a digit, then
digits; what follows the digits is ignored).  Content that begins with a number
is judged by the value the extraction stores, the failure state of the stream
not being looked at: `is_enabled` returns false for the number 0 and true for
every other number, signed or not; `has_pp_override_mask` tests bit 0x4000 of the
32-bit value stored (`stored_unsigned`), so it returns true whenever the
magnitude exceeds `0xffffffff`; `is_vendor_amd` compares the 16-bit value stored
with `0x1002`, so it returns false whenever the magnitude exceeds `0xffff`, true
for a number without minus sign exactly when it is `0x1002` and for a number
with minus sign exactly when its magnitude is `0xeffe`. -/
theorem C10_accessors_on_malformed_content (w : World) (path : String) :
    (w.ifstream (path ++ "/enable") = none → (is_enabled w path).1 = false) ∧
    (w.ifstream ppfeaturemask_path = none → (has_pp_override_mask w).1 = false) ∧
    (w.ifstream (path ++ "/vendor") = none → (is_vendor_amd w path).1 = false) ∧
    (∀ content, w.ifstream (path ++ "/enable") = some content →
      written_number 10 content.data = none → (is_enabled w path).1 = false) ∧
    (∀ content, w.ifstream ppfeaturemask_path = some content →
      written_number 16 content.data = none → (has_pp_override_mask w).1 = false) ∧
    (∀ content, w.ifstream (path ++ "/vendor") = some content →
      written_number 16 content.data = none → (is_vendor_amd w path).1 = false) ∧
    (∀ content negative v, w.ifstream (path ++ "/enable") = some content →
      written_number 10 content.data = some (negative, v) →
      (is_enabled w path).1 = decide (v ≠ 0)) ∧
    (∀ content negative v, w.ifstream ppfeaturemask_path = some content →
      written_number 16 content.data = some (negative, v) →
      (has_pp_override_mask w).1 =
          decide (stored_unsigned 32 (some (negative, v)) &&& 0x4000 ≠ 0) ∧
        (0xffffffff < v → (has_pp_override_mask w).1 = true)) ∧
    (∀ content negative v, w.ifstream (path ++ "/vendor") = some content →
      written_number 16 content.data = some (negative, v) →
      (is_vendor_amd w path).1 = decide (stored_unsigned 16 (some (negative, v)) = 0x1002) ∧
        (0xffff < v → (is_vendor_amd w path).1 = false) ∧
        (negative = false → (is_vendor_amd w path).1 = decide (v = 0x1002)) ∧
        (negative = true → (is_vendor_amd w path).1 = decide (v = 0xeffe))) := by
  refine ⟨?_, ?_, ?_, ?_, ?_, ?_, ?_, ?_, ?_⟩
  · intro h; rw [is_enabled_result, h]
  · intro h; rw [has_pp_override_mask_result, h]
  · intro h; rw [is_vendor_amd_result, h]
  · intro content h hn
    rw [is_enabled_result, h]
    simp only [hn]
    rfl
  · intro content h hn
    rw [has_pp_override_mask_result, h]
    simp only [hn]
    decide
  · intro content h hn
    rw [is_vendor_amd_result, h]
    simp only [hn]
    decide
  · intro content negative v h hn
    rw [is_enabled_result, h]
    simp only [hn]
    rfl
  · intro content negative v h hn
    have hval : (has_pp_override_mask w).1 =
        decide (stored_unsigned 32 (some (negative, v)) &&& 0x4000 ≠ 0) := by
      rw [has_pp_override_mask_result, h]
      simp only [hn]
    refine ⟨hval, ?_⟩
    intro hv
    have hgt : v > 2 ^ 32 - 1 := by omega
    rw [hval]
    simp only [stored_unsigned, hgt, if_true]
    decide
  · intro content negative v h hn
    have hval : (is_vendor_amd w path).1 =
        decide (stored_unsigned 16 (some (negative, v)) = 0x1002) := by
      rw [is_vendor_amd_result, h]
      simp only [hn]
    refine ⟨hval, ?_, ?_, ?_⟩
    · intro hv
      rw [hval]
      simp only [stored_unsigned, decide_eq_false_iff_not]
      split_ifs <;> omega
    · intro hneg
      rw [hval, hneg]
      simp only [stored_unsigned, Bool.false_eq_true, if_false, decide_eq_decide]
      split_ifs <;> omega
    · intro hneg
      rw [hval, hneg]
      simp only [stored_unsigned, if_true, decide_eq_decide]
      split_ifs <;> omega

/-! ## The table fetch -/

theorem read_result_eq (w : World) (file : String) (size : Int) :
    read_result w file size = -1 ∨
      read_result w file size = ((bytes_read w file size).length : Int) := by
  unfold read_result bytes_read
  cases w.read file size with
  | none => exact Or.inl rfl
  | some bytes => exact Or.inr rfl

theorem read_result_pos (w : World) (file : String) (size : Int)
    (h : 0 < read_result w file size) :
    read_result w file size = ((bytes_read w file size).length : Int) := by
  rcases read_result_eq w file size with h1 | h1
  · omega
  · exact h1

theorem bytes_read_le (w : World) (file : String) (size : Int) :
    ((bytes_read w file size).length : Int) ≤ max size 0 := by
  unfold bytes_read
  cases w.read file size with
  | none => simp
  | some bytes =>
    simp only [List.length_take]
    omega

theorem fetched_table_payload (w : World) (file : String)
    (h : 0 < read_result w file (w.lseek_end file)) :
    (fetched_table w file).payload = (bytes_read w file (w.lseek_end file)).map some := by
  have heq := read_result_pos w file (w.lseek_end file) h
  simp only [Array.payload, Array.data, Array.size, fetched_table, Option.getD_some, heq,
    Int.toNat_ofNat]
  rw [List.take_append_of_le_length (by simp)]
  simp

/-- C7 (the claim fails here): the table file reports 8 bytes, the read
transfers 3 of them, and the buffer `fetch_pp_table` returns is not empty: its
logical size is 3. -/
theorem C7_counterexample :
    world_partial_read.lseek_end ("/sys/class/drm/card0/device" ++ "/pp_table") = 8 ∧
    read_result world_partial_read ("/sys/class/drm/card0/device" ++ "/pp_table") 8 = 3 ∧
    ∃ a, (fetch_pp_table world_partial_read "/sys/class/drm/card0/device").1 = some a ∧
      a.empty = false ∧ a.size = 3 :=
  ⟨rfl, rfl, _, rfl, rfl, rfl⟩

theorem fetch_pp_table_cases (w : World) (path : String) :
    (¬ fetch_reaches_allocation w (path ++ "/pp_table") ∧
      (∃ a, (fetch_pp_table w path).1 = some a ∧ a.m_size = 0) ∧
      Action.read (path ++ "/pp_table") (w.lseek_end (path ++ "/pp_table")) ∉
        (fetch_pp_table w path).2) ∨
    (fetch_reaches_allocation w (path ++ "/pp_table") ∧
      w.operator_new (w.lseek_end (path ++ "/pp_table")) = false ∧
      fetch_pp_table w path = (none,
        [.sys_open (path ++ "/pp_table") .O_RDONLY, .lseek (path ++ "/pp_table") 0 .SEEK_END,
          .lseek (path ++ "/pp_table") 0 .SEEK_SET])) ∨
    (fetch_reaches_allocation w (path ++ "/pp_table") ∧
      w.operator_new (w.lseek_end (path ++ "/pp_table")) = true ∧
      read_result w (path ++ "/pp_table") (w.lseek_end (path ++ "/pp_table")) ≤ 0 ∧
      (∃ a, (fetch_pp_table w path).1 = some a ∧ a.m_size = 0) ∧
      Action.read (path ++ "/pp_table") (w.lseek_end (path ++ "/pp_table")) ∈
        (fetch_pp_table w path).2) ∨
    (fetch_reaches_allocation w (path ++ "/pp_table") ∧
      w.operator_new (w.lseek_end (path ++ "/pp_table")) = true ∧
      0 < read_result w (path ++ "/pp_table") (w.lseek_end (path ++ "/pp_table")) ∧
      fetch_pp_table w path = (some (fetched_table w (path ++ "/pp_table")),
        [.sys_open (path ++ "/pp_table") .O_RDONLY, .lseek (path ++ "/pp_table") 0 .SEEK_END,
          .lseek (path ++ "/pp_table") 0 .SEEK_SET,
          .read (path ++ "/pp_table") (w.lseek_end (path ++ "/pp_table")),
          .close (path ++ "/pp_table")])) := by
  generalize hfile : path ++ "/pp_table" = file
  unfold fetch_pp_table fetch_reaches_allocation
  simp only [hfile]
  by_cases ho : w.sys_open file .O_RDONLY = false
  · left
    simp [ho]
  · have ho1 : w.sys_open file .O_RDONLY = true := by simpa using ho
    by_cases hs : w.lseek_end file ≤ 0
    · left
      refine ⟨fun h => by omega, ?_⟩
      simp [ho1, hs]
    · by_cases hk : w.lseek_set file ≠ 0
      · left
        refine ⟨fun h => hk h.2.2, ?_⟩
        simp [ho1, hs, hk]
      · have hk0 : w.lseek_set file = 0 := by simpa using hk
        have hreach : w.sys_open file .O_RDONLY = true ∧ 0 < w.lseek_end file ∧
            w.lseek_set file = 0 := ⟨ho1, by omega, hk0⟩
        right
        by_cases hnew : w.operator_new (w.lseek_end file) = false
        · left
          have hbad : w.lseek_end file < 0 ∨ w.operator_new (w.lseek_end file) = false :=
            Or.inr hnew
          refine ⟨hreach, hnew, ?_⟩
          simp [ho1, hs, hk0, Array.allocate, hbad]
        · right
          have hnew1 : w.operator_new (w.lseek_end file) = true := by simpa using hnew
          have hbad : ¬ (w.lseek_end file < 0 ∨ w.operator_new (w.lseek_end file) = false) := by
            rw [hnew1]
            simp only [Bool.true_eq_false, or_false]
            omega
          have halloc : Array.allocate {} w.operator_new (w.lseek_end file) =
              some (true, { m_data := some (List.replicate (w.lseek_end file).toNat none),
                            m_capacity := w.lseek_end file, m_size := 0 }) := by
            simp only [Array.allocate, hbad, if_false]
            rfl
          by_cases hr : read_result w file (w.lseek_end file) ≤ 0
          · left
            refine ⟨hreach, hnew1, hr, ?_⟩
            simp [ho1, hs, hk0, halloc, hr, Array.store]
          · right
            have hpos : 0 < read_result w file (w.lseek_end file) := by omega
            have hle := bytes_read_le w file (w.lseek_end file)
            have heq := read_result_pos w file (w.lseek_end file) hpos
            have hok : ¬ (read_result w file (w.lseek_end file) < 0 ∨
                read_result w file (w.lseek_end file) > w.lseek_end file) := by omega
            refine ⟨hreach, hnew1, hpos, ?_⟩
            simp [ho1, hs, hk0, halloc, hr, Array.store, Array.set_size, hok, fetched_table]

/-! ## The loop body and its actions -/

theorem process_entry_eq (w : World) (mode : Mode) (once : Bool) (name : String) :
    process_entry w mode once name =
      if fetch_throws w name = true then (none, probe_actions w name)
      else if eligible w name = true then
        match mode with
        | .BEFORE_SUSPEND =>
          (some true, probe_actions w name ++
            ((if once = false then [Action.system pause_cmd] else []) ++
              ((reset_clk_voltage w (device_path name)).2 ++
                [.cerr (reset_line (reset_clk_voltage w (device_path name)).1 name)])))
        | .AFTER_RESUME =>
          (some true, probe_actions w name ++
            ((upload_pp_table w (device_path name) (entry_table w name)).2 ++
              [.cerr (upload_line
                (upload_pp_table w (device_path name) (entry_table w name)).1 name)]))
        | .UNKNOWN => (some once, probe_actions w name)
      else (some once, probe_actions w name) := by
  unfold process_entry eligible probe_actions entry_table fetch_throws
  by_cases hd : w.is_directory (entry_path name) = false
  · simp [hd]
  · by_cases hn : name_filter name = false
    · simp [hn]
    · by_cases hv : (is_vendor_amd w (device_path name)).1 = false
      · simp [hd, hn, hv]
      · by_cases he : (is_enabled w (device_path name)).1 = false
        · simp [hd, hn, hv, he]
        · cases htbl : (fetch_pp_table w (device_path name)).1 with
          | none => simp [hd, hn, hv, he, htbl]
          | some tbl =>
            by_cases hempty : tbl.empty = true
            · simp [hd, hn, hv, he, htbl, hempty]
            · cases mode <;> simp [hd, hn, hv, he, htbl, hempty]

theorem eligible_not_throws (w : World) (name : String) (h : eligible w name = true) :
    fetch_throws w name = false := by
  unfold eligible at h
  unfold fetch_throws
  cases htbl : (fetch_pp_table w (device_path name)).1 with
  | none => simp [htbl] at h
  | some tbl => simp

theorem is_vendor_amd_actions (w : World) (path : String) :
    ∀ a ∈ (is_vendor_amd w path).2,
      a = .ifstream_open (path ++ "/vendor") ∨ a = .ifstream_extract (path ++ "/vendor") := by
  intro a ha
  unfold is_vendor_amd at ha
  cases h : w.ifstream (path ++ "/vendor") <;> simp [h] at ha <;> tauto

theorem is_enabled_actions (w : World) (path : String) :
    ∀ a ∈ (is_enabled w path).2,
      a = .ifstream_open (path ++ "/enable") ∨ a = .ifstream_extract (path ++ "/enable") := by
  intro a ha
  unfold is_enabled at ha
  cases h : w.ifstream (path ++ "/enable") <;> simp [h] at ha <;> tauto

theorem fetch_pp_table_actions (w : World) (path : String) :
    ∀ a ∈ (fetch_pp_table w path).2,
      a = .sys_open (path ++ "/pp_table") .O_RDONLY ∨
      a = .lseek (path ++ "/pp_table") 0 .SEEK_END ∨
      a = .lseek (path ++ "/pp_table") 0 .SEEK_SET ∨
      a = .read (path ++ "/pp_table") (w.lseek_end (path ++ "/pp_table")) ∨
      a = .close (path ++ "/pp_table") := by
  intro a ha
  unfold fetch_pp_table at ha
  simp only [] at ha
  split_ifs at ha <;> (try split at ha) <;> simp at ha <;> tauto

theorem reset_clk_voltage_actions (w : World) (path : String) :
    (reset_clk_voltage w path).2 = [.sys_open (path ++ "/pp_od_clk_voltage") .O_WRONLY] ∨
    (reset_clk_voltage w path).2 = [.sys_open (path ++ "/pp_od_clk_voltage") .O_WRONLY,
      .write (path ++ "/pp_od_clk_voltage") [some byte_r], .close (path ++ "/pp_od_clk_voltage")] := by
  unfold reset_clk_voltage
  simp only []
  split_ifs
  · exact Or.inl rfl
  · exact Or.inr rfl

theorem upload_pp_table_actions (w : World) (path : String) (data : Array) :
    ∀ a ∈ (upload_pp_table w path data).2,
      a = .sys_open (path ++ "/pp_table") .O_WRONLY ∨
      a = .write (path ++ "/pp_table") data.payload ∨
      a = .close (path ++ "/pp_table") := by
  intro a ha
  unfold upload_pp_table at ha
  simp only [] at ha
  split_ifs at ha <;> simp at ha <;> tauto

theorem probe_actions_mem (w : World) (name : String) :
    ∀ a ∈ probe_actions w name,
      a = .is_directory (entry_path name) ∨
      (w.is_directory (entry_path name) = true ∧ name_filter name = true ∧
        (a ∈ (is_vendor_amd w (device_path name)).2 ∨
          ((is_vendor_amd w (device_path name)).1 = true ∧
            (a ∈ (is_enabled w (device_path name)).2 ∨
              ((is_enabled w (device_path name)).1 = true ∧
                a ∈ (fetch_pp_table w (device_path name)).2))))) := by
  intro a ha
  unfold probe_actions at ha
  rcases List.mem_cons.1 ha with h | h
  · exact Or.inl h
  · right
    split_ifs at h with h1 h2 h3
    · cases h
    · simp only [not_or, Bool.not_eq_false] at h1
      simp only [List.append_nil] at h
      exact ⟨h1.1, h1.2, Or.inl h⟩
    · simp only [not_or, Bool.not_eq_false] at h1 h2
      simp only [List.append_nil, List.mem_append] at h
      refine ⟨h1.1, h1.2, ?_⟩
      rcases h with h | h
      · exact Or.inl h
      · exact Or.inr ⟨h2, Or.inl h⟩
    · simp only [not_or, Bool.not_eq_false] at h1 h2 h3
      simp only [List.mem_append] at h
      refine ⟨h1.1, h1.2, ?_⟩
      rcases h with h | h | h
      · exact Or.inl h
      · exact Or.inr ⟨h2, Or.inl h⟩
      · exact Or.inr ⟨h2, Or.inr ⟨h3, h⟩⟩

theorem probe_actions_quiet (w : World) (name : String) :
    ∀ a ∈ probe_actions w name, a.is_system = false ∧ a.is_write_access = false := by
  intro a ha
  rcases probe_actions_mem w name a ha with h | ⟨_, _, h | ⟨_, h | ⟨_, h⟩⟩⟩
  · subst h; exact ⟨rfl, rfl⟩
  · rcases is_vendor_amd_actions w _ a h with h | h <;> subst h <;> exact ⟨rfl, rfl⟩
  · rcases is_enabled_actions w _ a h with h | h <;> subst h <;> exact ⟨rfl, rfl⟩
  · rcases fetch_pp_table_actions w _ a h with h | h | h | h | h <;> subst h <;> exact ⟨rfl, rfl⟩

theorem reset_clk_voltage_no_system (w : World) (path : String) :
    ∀ a ∈ (reset_clk_voltage w path).2, a.is_system = false := by
  intro a ha
  rcases reset_clk_voltage_actions w path with h | h <;> rw [h] at ha <;> simp at ha
  · subst ha; rfl
  · rcases ha with h | h | h <;> subst h <;> rfl

theorem upload_pp_table_no_system (w : World) (path : String) (data : Array) :
    ∀ a ∈ (upload_pp_table w path data).2, a.is_system = false := by
  intro a ha
  rcases upload_pp_table_actions w path data a ha with h | h | h <;> subst h <;> rfl

/-! ## The loop and the two commands -/

theorem main_loop_cons (w : World) (mode : Mode) (name : String) (rest : List String)
    (once once1 : Bool) (acts : List Action)
    (h : process_entry w mode once name = (some once1, acts)) :
    main_loop w mode (name :: rest) once =
      ((main_loop w mode rest once1).1, acts ++ (main_loop w mode rest once1).2) := by
  simp [main_loop, h]

theorem main_loop_throw (w : World) (mode : Mode) (name : String) (rest : List String)
    (once : Bool) (h : fetch_throws w name = true) :
    main_loop w mode (name :: rest) once = (none, probe_actions w name) := by
  have hp : process_entry w mode once name = (none, probe_actions w name) := by
    rw [process_entry_eq, if_pos h]
  simp [main_loop, hp]

theorem process_entry_ineligible (w : World) (mode : Mode) (once : Bool) (name : String)
    (ht : fetch_throws w name = false) (h : eligible w name = false) :
    process_entry w mode once name = (some once, probe_actions w name) := by
  rw [process_entry_eq, ht, h]
  simp

theorem process_entry_suspend (w : World) (once : Bool) (name : String)
    (h : eligible w name = true) :
    process_entry w .BEFORE_SUSPEND once name = (some true, probe_actions w name ++
      ((if once = false then [Action.system pause_cmd] else []) ++
        ((reset_clk_voltage w (device_path name)).2 ++
          [.cerr (reset_line (reset_clk_voltage w (device_path name)).1 name)]))) := by
  rw [process_entry_eq, eligible_not_throws w name h, h]
  simp

theorem process_entry_resume (w : World) (once : Bool) (name : String)
    (h : eligible w name = true) :
    process_entry w .AFTER_RESUME once name = (some true, probe_actions w name ++
      ((upload_pp_table w (device_path name) (entry_table w name)).2 ++
        [.cerr (upload_line
          (upload_pp_table w (device_path name) (entry_table w name)).1 name)])) := by
  rw [process_entry_eq, eligible_not_throws w name h, h]
  simp

theorem process_entry_returns (w : World) (mode : Mode) (once : Bool) (name : String)
    (ht : fetch_throws w name = false) :
    ∃ once1 acts, process_entry w mode once name = (some once1, acts) := by
  by_cases he : eligible w name = true
  · cases mode with
    | UNKNOWN => exact ⟨_, _, by rw [process_entry_eq, ht, he]; rfl⟩
    | BEFORE_SUSPEND => exact ⟨_, _, process_entry_suspend w once name he⟩
    | AFTER_RESUME => exact ⟨_, _, process_entry_resume w once name he⟩
  · exact ⟨_, _, process_entry_ineligible w mode once name ht (by simpa using he)⟩

/-- What the loop does from the first entry whose fetch throws: nothing, the
run has ended. The loop over `l1 ++ n :: l2`, where no fetch throws in `l1` and
the fetch of `n` throws, performs the actions of the loop over `l1` and then the
probe of `n`. -/
theorem main_loop_abort (w : World) (mode : Mode) (n : String) (l2 : List String) :
    ∀ (l1 : List String) (once : Bool), (∀ m ∈ l1, fetch_throws w m = false) →
      fetch_throws w n = true →
      (main_loop w mode l1 once).1 ≠ none ∧
      main_loop w mode (l1 ++ n :: l2) once =
        (none, (main_loop w mode l1 once).2 ++ probe_actions w n) := by
  intro l1
  induction l1 with
  | nil =>
    intro once _ hn
    refine ⟨by simp [main_loop], ?_⟩
    rw [List.nil_append, main_loop_throw w mode n l2 once hn]
    simp [main_loop]
  | cons m rest ih =>
    intro once hall hn
    have hm : fetch_throws w m = false := hall m (List.mem_cons_self _ _)
    obtain ⟨once1, acts, hp⟩ := process_entry_returns w mode once m hm
    obtain ⟨h1, h2⟩ := ih once1 (fun x hx => hall x (List.mem_cons_of_mem _ hx)) hn
    rw [List.cons_append, main_loop_cons w mode m (rest ++ n :: l2) once once1 acts hp,
      main_loop_cons w mode m rest once once1 acts hp, h2]
    exact ⟨h1, by simp⟩

theorem first_throw (w : World) :
    ∀ names : List String, (∃ n ∈ names, fetch_throws w n = true) →
      ∃ l1 n l2, names = l1 ++ n :: l2 ∧ (∀ m ∈ l1, fetch_throws w m = false) ∧
        fetch_throws w n = true := by
  intro names
  induction names with
  | nil => rintro ⟨n, hn, _⟩; cases hn
  | cons m rest ih =>
    rintro ⟨n, hn, ht⟩
    by_cases hm : fetch_throws w m = true
    · exact ⟨[], m, rest, rfl, (fun _ h => by cases h), hm⟩
    · have hm0 : fetch_throws w m = false := by simpa using hm
      have hn1 : n ∈ rest := by
        rcases List.mem_cons.1 hn with h | h
        · subst h; rw [ht] at hm0; cases hm0
        · exact h
      obtain ⟨l1, k, l2, heq, hall, hk⟩ := ih ⟨n, hn1, ht⟩
      refine ⟨m :: l1, k, l2, by rw [heq]; rfl, ?_, hk⟩
      intro x hx
      rcases List.mem_cons.1 hx with h | h
      · rw [h]; exact hm0
      · exact hall x h

theorem main_loop_ineligible (w : World) (mode : Mode) :
    ∀ (names : List String) (once : Bool), (∀ n ∈ names, fetch_throws w n = false) →
      (∀ n ∈ names, eligible w n = false) →
      ∃ acts, main_loop w mode names once = (some once, acts) ∧
        ∀ a ∈ acts, a.is_system = false ∧ a.is_write_access = false := by
  intro names
  induction names with
  | nil => intro once _ _; exact ⟨[], rfl, fun _ h => by cases h⟩
  | cons n rest ih =>
    intro once hnt hall
    obtain ⟨acts, hl, hq⟩ := ih once (fun m hm => hnt m (List.mem_cons_of_mem _ hm))
      (fun m hm => hall m (List.mem_cons_of_mem _ hm))
    have hp := process_entry_ineligible w mode once n (hnt n (List.mem_cons_self _ _))
      (hall n (List.mem_cons_self _ _))
    refine ⟨probe_actions w n ++ acts, ?_, ?_⟩
    · rw [main_loop_cons w mode n rest once once _ hp, hl]
    · intro a ha
      rcases List.mem_append.1 ha with h | h
      · exact probe_actions_quiet w n a h
      · exact hq a h

theorem main_loop_suspend_paused (w : World) :
    ∀ (names : List String), (∀ n ∈ names, fetch_throws w n = false) → ∃ acts,
      main_loop w .BEFORE_SUSPEND names true = (some true, acts) ∧
        ∀ a ∈ acts, a.is_system = false := by
  intro names
  induction names with
  | nil => intro _; exact ⟨[], rfl, fun _ h => by cases h⟩
  | cons n rest ih =>
    intro hnt
    obtain ⟨acts, hl, hq⟩ := ih (fun m hm => hnt m (List.mem_cons_of_mem _ hm))
    by_cases he : eligible w n = true
    · have hp : process_entry w .BEFORE_SUSPEND true n = (some true, probe_actions w n ++
          ((reset_clk_voltage w (device_path n)).2 ++
            [.cerr (reset_line (reset_clk_voltage w (device_path n)).1 n)])) := by
        rw [process_entry_suspend w true n he]; simp
      refine ⟨_, by rw [main_loop_cons w _ n rest true true _ hp, hl], ?_⟩
      intro a ha
      simp only [List.mem_append, List.mem_singleton] at ha
      rcases ha with (h | h | h) | h
      · exact (probe_actions_quiet w n a h).1
      · exact reset_clk_voltage_no_system w _ a h
      · subst h; rfl
      · exact hq a h
    · have he0 : eligible w n = false := by simpa using he
      have hp := process_entry_ineligible w .BEFORE_SUSPEND true n
        (hnt n (List.mem_cons_self _ _)) he0
      refine ⟨_, by rw [main_loop_cons w _ n rest true true _ hp, hl], ?_⟩
      intro a ha
      rcases List.mem_append.1 ha with h | h
      · exact (probe_actions_quiet w n a h).1
      · exact hq a h

theorem main_loop_suspend_first (w : World) :
    ∀ (names : List String), (∀ n ∈ names, fetch_throws w n = false) →
      (∃ n ∈ names, eligible w n = true) →
      ∃ pre name tail,
        main_loop w .BEFORE_SUSPEND names false =
          (some true, pre ++ Action.system pause_cmd ::
            Action.sys_open (device_path name ++ "/pp_od_clk_voltage") .O_WRONLY :: tail) ∧
        eligible w name = true ∧ name ∈ names ∧
        (∀ a ∈ pre, a.is_system = false ∧ a.is_write_access = false) ∧
        (∀ a ∈ tail, a.is_system = false) := by
  intro names
  induction names with
  | nil => rintro _ ⟨n, hn, _⟩; cases hn
  | cons n rest ih =>
    intro hnt hex
    by_cases he : eligible w n = true
    · obtain ⟨acts, hl, hq⟩ := main_loop_suspend_paused w rest
        (fun m hm => hnt m (List.mem_cons_of_mem _ hm))
      have hp : process_entry w .BEFORE_SUSPEND false n = (some true, probe_actions w n ++
          ([Action.system pause_cmd] ++ ((reset_clk_voltage w (device_path n)).2 ++
            [.cerr (reset_line (reset_clk_voltage w (device_path n)).1 n)]))) := by
        rw [process_entry_suspend w false n he]; simp
      have hns := reset_clk_voltage_no_system w (device_path n)
      rcases reset_clk_voltage_actions w (device_path n) with hr | hr
      · refine ⟨probe_actions w n, n,
          [.cerr (reset_line (reset_clk_voltage w (device_path n)).1 n)] ++ acts, ?_, he,
          List.mem_cons_self _ _, probe_actions_quiet w n, ?_⟩
        · rw [main_loop_cons w _ n rest false true _ hp, hl, hr]
          simp
        · intro a ha
          simp only [List.mem_append, List.mem_singleton] at ha
          rcases ha with h | h
          · subst h; rfl
          · exact hq a h
      · refine ⟨probe_actions w n, n,
          [.write (device_path n ++ "/pp_od_clk_voltage") [some byte_r],
            .close (device_path n ++ "/pp_od_clk_voltage"),
            .cerr (reset_line (reset_clk_voltage w (device_path n)).1 n)] ++ acts, ?_, he,
          List.mem_cons_self _ _, probe_actions_quiet w n, ?_⟩
        · rw [main_loop_cons w _ n rest false true _ hp, hl, hr]
          simp
        · intro a ha
          simp only [List.mem_append, List.mem_cons, List.mem_singleton, List.not_mem_nil,
            or_false] at ha
          rcases ha with (h | h | h) | h
          · subst h; rfl
          · subst h; rfl
          · subst h; rfl
          · exact hq a h
    · have he0 : eligible w n = false := by simpa using he
      have hp := process_entry_ineligible w .BEFORE_SUSPEND false n
        (hnt n (List.mem_cons_self _ _)) he0
      obtain ⟨m, hm, hme⟩ := hex
      have hm1 : m ∈ rest := by
        rcases List.mem_cons.1 hm with h | h
        · subst h; rw [hme] at he0; cases he0
        · exact h
      obtain ⟨pre, name, tail, hl, hel, hmem, hpre, htail⟩ :=
        ih (fun x hx => hnt x (List.mem_cons_of_mem _ hx)) ⟨m, hm1, hme⟩
      refine ⟨probe_actions w n ++ pre, name, tail, ?_, hel, List.mem_cons_of_mem _ hmem, ?_, htail⟩
      · rw [main_loop_cons w _ n rest false false _ hp, hl]
        simp
      · intro a ha
        rcases List.mem_append.1 ha with h | h
        · exact probe_actions_quiet w n a h
        · exact hpre a h

theorem main_loop_resume (w : World) :
    ∀ (names : List String) (once : Bool), (∀ n ∈ names, fetch_throws w n = false) → ∃ acts,
      main_loop w .AFTER_RESUME names once = (some (once || names.any (eligible w)), acts) ∧
        ∀ a ∈ acts, a.is_system = false := by
  intro names
  induction names with
  | nil => intro once _; exact ⟨[], by simp [main_loop], fun _ h => by cases h⟩
  | cons n rest ih =>
    intro once hnt
    by_cases he : eligible w n = true
    · obtain ⟨acts, hl, hq⟩ := ih true (fun m hm => hnt m (List.mem_cons_of_mem _ hm))
      have hp : process_entry w .AFTER_RESUME once n = (some true, probe_actions w n ++
          ((upload_pp_table w (device_path n) (entry_table w n)).2 ++
            [.cerr (upload_line (upload_pp_table w (device_path n) (entry_table w n)).1 n)])) := by
        rw [process_entry_resume w once n he]
      refine ⟨(probe_actions w n ++
          ((upload_pp_table w (device_path n) (entry_table w n)).2 ++
            [.cerr (upload_line (upload_pp_table w (device_path n) (entry_table w n)).1 n)])) ++
          acts, by rw [main_loop_cons w _ n rest once true _ hp, hl]; simp [he], ?_⟩
      intro a ha
      simp only [List.mem_append, List.mem_singleton] at ha
      rcases ha with (h | h | h) | h
      · exact (probe_actions_quiet w n a h).1
      · exact upload_pp_table_no_system w _ _ a h
      · subst h; rfl
      · exact hq a h
    · have he0 : eligible w n = false := by simpa using he
      obtain ⟨acts, hl, hq⟩ := ih once (fun m hm => hnt m (List.mem_cons_of_mem _ hm))
      have hp := process_entry_ineligible w .AFTER_RESUME once n
        (hnt n (List.mem_cons_self _ _)) he0
      refine ⟨probe_actions w n ++ acts,
        by rw [main_loop_cons w _ n rest once once _ hp, hl]; simp [he0], ?_⟩
      intro a ha
      rcases List.mem_append.1 ha with h | h
      · exact (probe_actions_quiet w n a h).1
      · exact hq a h

theorem has_pp_override_mask_actions (w : World) :
    ∀ a ∈ (has_pp_override_mask w).2,
      a = .ifstream_open ppfeaturemask_path ∨ a = .ifstream_extract ppfeaturemask_path := by
  intro a ha
  unfold has_pp_override_mask at ha
  cases h : w.ifstream ppfeaturemask_path <;> simp [h] at ha <;> tauto

theorem has_pp_override_mask_quiet (w : World) :
    ∀ a ∈ (has_pp_override_mask w).2, a.is_system = false ∧ a.is_write_access = false := by
  intro a ha
  rcases has_pp_override_mask_actions w a ha with h | h <;> subst h <;> exact ⟨rfl, rfl⟩

theorem main_suspend_eq (w : World) (a0 : String) (names : List String) (once : Bool)
    (acts : List Action) (hgate : (has_pp_override_mask w).1 = true)
    (hdir : w.directory_iterator drm_dir = some names)
    (hl : main_loop w .BEFORE_SUSPEND names false = (some once, acts)) :
    main w [a0, "suspend"] =
      (some 0, ((has_pp_override_mask w).2 ++ [.directory_iterator drm_dir]) ++ acts) := by
  simp [main, hgate, hdir, hl]

theorem main_resume_eq (w : World) (a0 : String) (names : List String) (once : Bool)
    (acts : List Action) (hgate : (has_pp_override_mask w).1 = true)
    (hdir : w.directory_iterator drm_dir = some names)
    (hl : main_loop w .AFTER_RESUME names false = (some once, acts)) :
    main w [a0, "resume"] =
      (some 0, ((has_pp_override_mask w).2 ++ [.directory_iterator drm_dir]) ++
        (acts ++ if once = true then [.system resume_cmd] else [])) := by
  have h : ("resume" = "suspend") = False := by decide
  simp [main, hgate, hdir, hl, h]

theorem gate_actions_quiet (w : World) :
    ∀ a ∈ (has_pp_override_mask w).2 ++ [Action.directory_iterator drm_dir],
      a.is_system = false ∧ a.is_write_access = false := by
  intro a ha
  rcases List.mem_append.1 ha with h | h
  · exact has_pp_override_mask_quiet w a h
  · simp only [List.mem_singleton] at h
    subst h
    exact ⟨rfl, rfl⟩

theorem count_system_zero (l : List Action) (c : String)
    (h : ∀ a ∈ l, a.is_system = false) : l.count (.system c) = 0 := by
  apply List.count_eq_zero.2
  intro hm
  have := h _ hm
  cases this

theorem main_abort_eq (w : World) (a0 arg : String) (names : List String)
    (acts : List Action) (hmode : arg = "suspend" ∨ arg = "resume")
    (hgate : (has_pp_override_mask w).1 = true)
    (hdir : w.directory_iterator drm_dir = some names)
    (hl : main_loop w (mode_of arg) names false = (none, acts)) :
    main w [a0, arg] =
      (none, ((has_pp_override_mask w).2 ++ [.directory_iterator drm_dir]) ++ acts) := by
  have h : ("resume" = "suspend") = False := by decide
  rcases hmode with hm | hm <;> subst hm
  · have hl1 : main_loop w .BEFORE_SUSPEND names false = (none, acts) := hl
    simp [main, hgate, hdir, hl1]
  · have hl1 : main_loop w .AFTER_RESUME names false = (none, acts) := hl
    simp [main, hgate, hdir, hl1, h]

theorem main_loop_returns (w : World) (mode : Mode) :
    ∀ (names : List String) (once : Bool), (∀ n ∈ names, fetch_throws w n = false) →
      ∃ once1 acts, main_loop w mode names once = (some once1, acts) := by
  intro names
  induction names with
  | nil => intro once _; exact ⟨once, [], rfl⟩
  | cons n rest ih =>
    intro once hnt
    obtain ⟨once1, acts, hp⟩ := process_entry_returns w mode once n (hnt n (List.mem_cons_self _ _))
    obtain ⟨once2, acts2, hl⟩ := ih once1 (fun m hm => hnt m (List.mem_cons_of_mem _ hm))
    exact ⟨once2, acts ++ acts2, by rw [main_loop_cons w mode n rest once once1 acts hp, hl]⟩

theorem main_returns_iff (w : World) (a0 arg : String) (names : List String)
    (hmode : arg = "suspend" ∨ arg = "resume")
    (hgate : (has_pp_override_mask w).1 = true)
    (hdir : w.directory_iterator drm_dir = some names) :
    (main w [a0, arg]).1 = some 0 ↔ ∀ n ∈ names, fetch_throws w n = false := by
  constructor
  · intro hret
    by_contra hcon
    have hex : ∃ n ∈ names, fetch_throws w n = true := by
      by_contra hno
      apply hcon
      intro n hn
      by_contra hc
      exact hno ⟨n, hn, by simpa using hc⟩
    obtain ⟨l1, n, l2, heq, hall, hn⟩ := first_throw w names hex
    obtain ⟨_, hl⟩ := main_loop_abort w (mode_of arg) n l2 l1 false hall hn
    rw [← heq] at hl
    rw [main_abort_eq w a0 arg names _ hmode hgate hdir hl] at hret
    cases hret
  · intro hnt
    obtain ⟨once1, acts, hl⟩ := main_loop_returns w (mode_of arg) names false hnt
    rcases hmode with hm | hm <;> subst hm
    · rw [main_suspend_eq w a0 names once1 acts hgate hdir hl]
    · rw [main_resume_eq w a0 names once1 acts hgate hdir hl]

/-- C4 (the claim fails here): `card0` is eligible, so `N = 1`; `card1` passes
the vendor and enable filters, but the size `lseek` reports for its table is one
the heap cannot serve, and the `new` expression in `fetch_pp_table` throws.  The
resume run uploads to `card0`, ends at `card1` without returning, and never
issues the resume command. -/
theorem C4_counterexample :
    (has_pp_override_mask world_huge_table).1 = true ∧
    world_huge_table.directory_iterator drm_dir = some ["card0", "card1"] ∧
    (["card0", "card1"].filter (eligible world_huge_table)).length = 1 ∧
    (main world_huge_table ["amdgpu-workaround", "resume"]).1 = none ∧
    Action.write "/sys/class/drm/card0/device/pp_table" [some 1, some 2, some 3] ∈
      (main world_huge_table ["amdgpu-workaround", "resume"]).2 ∧
    (main world_huge_table ["amdgpu-workaround", "resume"]).2.count (.system resume_cmd) = 0 := by
  refine ⟨by decide, by decide, by decide, by decide, by decide, by decide⟩

/-- C4 (amended): with the gate active and `N` the number of listed entries that
pass every filter.  A run returns exactly when no fetch throws.  In a run that
returns: `N = 0`, neither mode issues any command; `N ≥ 1`, suspend: the trace is
`pre`, the pause command, the opening for writing of the clock/voltage file of
an eligible entry (the first reset attempt), `tail`, where `pre` holds no
command and no write access and `tail` no command, so the pause command is
issued exactly once, before every reset attempt, and the resume command never;
`N ≥ 1`, resume: the resume command is the last action of the trace and nothing
before it is a command, so it is issued exactly once, after every upload attempt,
whatever the uploads returned, and the pause command never.  In a run that a
throwing fetch ends: the resume run issues no command at all; the suspend run
issues no resume command and either issues no command and makes no write access,
or has a trace of the same shape as above, so the pause command is issued at
most once and before every reset attempt. -/
theorem C4_pause_and_resume_commands (w : World) (a0 : String) (names : List String)
    (hgate : (has_pp_override_mask w).1 = true)
    (hdir : w.directory_iterator drm_dir = some names) :
    (((main w [a0, "suspend"]).1 = some 0 ↔ ∀ n ∈ names, fetch_throws w n = false) ∧
      ((main w [a0, "resume"]).1 = some 0 ↔ ∀ n ∈ names, fetch_throws w n = false)) ∧
    ((∀ n ∈ names, fetch_throws w n = false) →
      ((names.filter (eligible w)).length = 0 →
        (main w [a0, "suspend"]).1 = some 0 ∧
        (∀ a ∈ (main w [a0, "suspend"]).2, a.is_system = false) ∧
        (main w [a0, "resume"]).1 = some 0 ∧
        (∀ a ∈ (main w [a0, "resume"]).2, a.is_system = false)) ∧
      (1 ≤ (names.filter (eligible w)).length →
        (∃ pre name tail,
          main w [a0, "suspend"] = (some 0, pre ++ Action.system pause_cmd ::
            Action.sys_open (device_path name ++ "/pp_od_clk_voltage") .O_WRONLY :: tail) ∧
          eligible w name = true ∧ name ∈ names ∧
          (∀ a ∈ pre, a.is_system = false ∧ a.is_write_access = false) ∧
          (∀ a ∈ tail, a.is_system = false)) ∧
        (main w [a0, "suspend"]).2.count (.system pause_cmd) = 1 ∧
        (main w [a0, "suspend"]).2.count (.system resume_cmd) = 0 ∧
        (∃ pre, main w [a0, "resume"] = (some 0, pre ++ [Action.system resume_cmd]) ∧
          ∀ a ∈ pre, a.is_system = false) ∧
        (main w [a0, "resume"]).2.count (.system resume_cmd) = 1 ∧
        (main w [a0, "resume"]).2.count (.system pause_cmd) = 0)) ∧
    ((∃ n ∈ names, fetch_throws w n = true) →
      (main w [a0, "suspend"]).1 = none ∧ (main w [a0, "resume"]).1 = none ∧
      (∀ a ∈ (main w [a0, "resume"]).2, a.is_system = false) ∧
      (main w [a0, "suspend"]).2.count (.system resume_cmd) = 0 ∧
      (main w [a0, "suspend"]).2.count (.system pause_cmd) ≤ 1 ∧
      ((∀ a ∈ (main w [a0, "suspend"]).2, a.is_system = false ∧ a.is_write_access = false) ∨
        ∃ pre name tail,
          (main w [a0, "suspend"]).2 = pre ++ Action.system pause_cmd ::
            Action.sys_open (device_path name ++ "/pp_od_clk_voltage") .O_WRONLY :: tail ∧
          eligible w name = true ∧ name ∈ names ∧
          (∀ a ∈ pre, a.is_system = false ∧ a.is_write_access = false) ∧
          (∀ a ∈ tail, a.is_system = false))) := by
  have hne : pause_cmd ≠ resume_cmd := by decide
  have hc1 : (Action.system pause_cmd == Action.system pause_cmd) = true := by simp
  have hc2 : (Action.system pause_cmd == Action.system resume_cmd) = false := by
    simp [hne]
  have hc3 : (Action.system resume_cmd == Action.system pause_cmd) = false := by
    simp [hne.symm]
  have hc4 : (Action.system resume_cmd == Action.system resume_cmd) = true := by simp
  refine ⟨⟨main_returns_iff w a0 "suspend" names (Or.inl rfl) hgate hdir,
    main_returns_iff w a0 "resume" names (Or.inr rfl) hgate hdir⟩, ?_, ?_⟩
  · intro hnt
    constructor
    · intro h0
      have hall : ∀ n ∈ names, eligible w n = false := by
        intro n hn
        by_contra hcon
        have hmem : n ∈ names.filter (eligible w) := List.mem_filter.2 ⟨hn, by simpa using hcon⟩
        rw [List.length_eq_zero.1 h0] at hmem
        cases hmem
      obtain ⟨acts1, hl1, hq1⟩ := main_loop_ineligible w .BEFORE_SUSPEND names false hnt hall
      obtain ⟨acts2, hl2, hq2⟩ := main_loop_ineligible w .AFTER_RESUME names false hnt hall
      rw [main_suspend_eq w a0 names false acts1 hgate hdir hl1,
        main_resume_eq w a0 names false acts2 hgate hdir hl2]
      refine ⟨rfl, ?_, rfl, ?_⟩
      · intro a ha
        rcases List.mem_append.1 ha with h | h
        · exact (gate_actions_quiet w a h).1
        · exact (hq1 a h).1
      · intro a ha
        simp only [Bool.false_eq_true, if_false, List.append_nil] at ha
        rcases List.mem_append.1 ha with h | h
        · exact (gate_actions_quiet w a h).1
        · exact (hq2 a h).1
    · intro h1
      have hex : ∃ n ∈ names, eligible w n = true := by
        cases hf : names.filter (eligible w) with
        | nil => rw [hf] at h1; simp at h1
        | cons n t =>
          have hmem : n ∈ names.filter (eligible w) := by rw [hf]; exact List.mem_cons_self _ _
          exact ⟨n, (List.mem_filter.1 hmem).1, (List.mem_filter.1 hmem).2⟩
      obtain ⟨pre, name, tail, hl, hel, hmem, hpre, htail⟩ :=
        main_loop_suspend_first w names hnt hex
      obtain ⟨acts, hlr, hqr⟩ := main_loop_resume w names false hnt
      have hany : (false || names.any (eligible w)) = true := by
        obtain ⟨n, hn, hne⟩ := hex
        simp only [Bool.false_or, List.any_eq_true]
        exact ⟨n, hn, hne⟩
      rw [hany] at hlr
      have hs := main_suspend_eq w a0 names true _ hgate hdir hl
      have hr := main_resume_eq w a0 names true acts hgate hdir hlr
      have hpre1 : ∀ a ∈ ((has_pp_override_mask w).2 ++ [Action.directory_iterator drm_dir]) ++ pre,
          a.is_system = false ∧ a.is_write_access = false := by
        intro a ha
        rcases List.mem_append.1 ha with h | h
        · exact gate_actions_quiet w a h
        · exact hpre a h
      have hpre2 : ∀ a ∈ ((has_pp_override_mask w).2 ++ [Action.directory_iterator drm_dir]) ++ acts,
          a.is_system = false := by
        intro a ha
        rcases List.mem_append.1 ha with h | h
        · exact (gate_actions_quiet w a h).1
        · exact hqr a h
      have hs1 : main w [a0, "suspend"] = (some 0,
          (((has_pp_override_mask w).2 ++ [Action.directory_iterator drm_dir]) ++ pre) ++
            Action.system pause_cmd ::
              Action.sys_open (device_path name ++ "/pp_od_clk_voltage") .O_WRONLY :: tail) := by
        rw [hs]; simp
      have hr1 : main w [a0, "resume"] = (some 0,
          (((has_pp_override_mask w).2 ++ [Action.directory_iterator drm_dir]) ++ acts) ++
            [Action.system resume_cmd]) := by
        rw [hr]; simp
      have htail1 : ∀ a ∈ Action.sys_open (device_path name ++ "/pp_od_clk_voltage") .O_WRONLY :: tail,
          a.is_system = false := by
        intro a ha
        rcases List.mem_cons.1 ha with h | h
        · subst h; rfl
        · exact htail a h
      refine ⟨⟨_, name, tail, hs1, hel, hmem, hpre1, htail⟩, ?_, ?_, ⟨_, hr1, hpre2⟩, ?_, ?_⟩
      · rw [hs1]
        simp only [List.count_append, List.count_cons, hc1, if_true,
          count_system_zero _ pause_cmd (fun a ha => (hpre1 a ha).1),
          count_system_zero _ pause_cmd htail1]
      · rw [hs1]
        simp only [List.count_append, List.count_cons, hc2,
          count_system_zero _ resume_cmd (fun a ha => (hpre1 a ha).1),
          count_system_zero _ resume_cmd htail1]
        simp
      · rw [hr1]
        simp only [List.count_append, List.count_cons, hc4, if_true, List.count_nil,
          count_system_zero _ resume_cmd hpre2]
      · rw [hr1]
        simp only [List.count_append, List.count_cons, hc3, List.count_nil,
          count_system_zero _ pause_cmd hpre2]
        simp
  · intro hex
    obtain ⟨l1, n, l2, heq, hall, hn⟩ := first_throw w names hex
    have hprobe := probe_actions_quiet w n
    -- the resume run
    obtain ⟨_, hlr⟩ := main_loop_abort w .AFTER_RESUME n l2 l1 false hall hn
    obtain ⟨actsr, hl1r, hqr⟩ := main_loop_resume w l1 false hall
    rw [← heq, hl1r] at hlr
    have hr := main_abort_eq w a0 "resume" names _ (Or.inr rfl) hgate hdir hlr
    -- the suspend run
    obtain ⟨_, hls⟩ := main_loop_abort w .BEFORE_SUSPEND n l2 l1 false hall hn
    rw [← heq] at hls
    have hs := main_abort_eq w a0 "suspend" names _ (Or.inl rfl) hgate hdir hls
    have hshape : (∀ a ∈ (main w [a0, "suspend"]).2,
          a.is_system = false ∧ a.is_write_access = false) ∨
        ∃ pre name tail,
          (main w [a0, "suspend"]).2 = pre ++ Action.system pause_cmd ::
            Action.sys_open (device_path name ++ "/pp_od_clk_voltage") .O_WRONLY :: tail ∧
          eligible w name = true ∧ name ∈ names ∧
          (∀ a ∈ pre, a.is_system = false ∧ a.is_write_access = false) ∧
          (∀ a ∈ tail, a.is_system = false) := by
      by_cases hel : ∃ m ∈ l1, eligible w m = true
      · right
        obtain ⟨pre, name, tail, hl, helig, hmem, hpre, htail⟩ :=
          main_loop_suspend_first w l1 hall hel
        refine ⟨((has_pp_override_mask w).2 ++ [Action.directory_iterator drm_dir]) ++ pre,
          name, tail ++ probe_actions w n, ?_, helig, ?_, ?_, ?_⟩
        · rw [hs, hl]; simp
        · rw [heq]; exact List.mem_append_left _ hmem
        · intro a ha
          rcases List.mem_append.1 ha with h | h
          · exact gate_actions_quiet w a h
          · exact hpre a h
        · intro a ha
          rcases List.mem_append.1 ha with h | h
          · exact htail a h
          · exact (hprobe a h).1
      · left
        have hnone : ∀ m ∈ l1, eligible w m = false := by
          intro m hm
          by_contra hc
          exact hel ⟨m, hm, by simpa using hc⟩
        obtain ⟨acts, hl, hq⟩ := main_loop_ineligible w .BEFORE_SUSPEND l1 false hall hnone
        rw [hs, hl]
        intro a ha
        simp only [List.mem_append] at ha
        rcases ha with h | h | h
        · exact gate_actions_quiet w a (List.mem_append.2 h)
        · exact hq a h
        · exact hprobe a h
    refine ⟨by rw [hs], by rw [hr], ?_, ?_, ?_, hshape⟩
    · rw [hr]
      intro a ha
      simp only [List.mem_append] at ha
      rcases ha with h | h | h
      · exact (gate_actions_quiet w a (List.mem_append.2 h)).1
      · exact hqr a h
      · exact (hprobe a h).1
    · rcases hshape with hq | ⟨pre, name, tail, htr, _, _, hpre, htail⟩
      · exact count_system_zero _ resume_cmd (fun a ha => (hq a ha).1)
      · rw [htr]
        have htail1 : ∀ a ∈ Action.sys_open (device_path name ++ "/pp_od_clk_voltage")
            .O_WRONLY :: tail, a.is_system = false := by
          intro a ha
          rcases List.mem_cons.1 ha with h | h
          · subst h; rfl
          · exact htail a h
        simp only [List.count_append, List.count_cons, hc2,
          count_system_zero _ resume_cmd (fun a ha => (hpre a ha).1),
          count_system_zero _ resume_cmd htail1]
        simp
    · rcases hshape with hq | ⟨pre, name, tail, htr, _, _, hpre, htail⟩
      · rw [count_system_zero _ pause_cmd (fun a ha => (hq a ha).1)]
        exact Nat.zero_le _
      · rw [htr]
        have htail1 : ∀ a ∈ Action.sys_open (device_path name ++ "/pp_od_clk_voltage")
            .O_WRONLY :: tail, a.is_system = false := by
          intro a ha
          rcases List.mem_cons.1 ha with h | h
          · subst h; rfl
          · exact htail a h
        simp only [List.count_append, List.count_cons, hc1, if_true,
          count_system_zero _ pause_cmd (fun a ha => (hpre a ha).1),
          count_system_zero _ pause_cmd htail1]
        exact le_refl _

/-! ## Paths of device files -/

theorem device_file_data (n s : String) :
    (device_path n ++ s).data = "/sys/class/drm/".data ++ (n.data ++ ("/device".data ++ s.data)) := by
  simp [device_path, entry_path, drm_dir, String.data_append]

theorem device_file_inj (n1 n2 s : String) (h : device_path n1 ++ s = device_path n2 ++ s) :
    n1 = n2 := by
  have hd := congrArg String.data h
  rw [device_file_data, device_file_data] at hd
  exact String.ext (List.append_cancel_right (List.append_cancel_left hd))

theorem device_file_tail (n1 n2 s1 s2 : String) (k : Nat)
    (h : device_path n1 ++ s1 = device_path n2 ++ s2)
    (h1 : k ≤ s1.data.reverse.length) (h2 : k ≤ s2.data.reverse.length) :
    s1.data.reverse.take k = s2.data.reverse.take k := by
  have hd := congrArg (fun p => (String.data p).reverse.take k) h
  simp only [device_file_data, List.reverse_append, List.append_assoc] at hd
  rw [List.take_append_of_le_length h1, List.take_append_of_le_length h2] at hd
  exact hd

theorem clk_ne_table (n1 n2 : String) :
    device_path n1 ++ "/pp_od_clk_voltage" ≠ device_path n2 ++ "/pp_table" := by
  intro h
  have := device_file_tail n1 n2 "/pp_od_clk_voltage" "/pp_table" 2 h (by decide) (by decide)
  revert this
  decide

/-! ## What a trace can hold -/

theorem process_entry_mem (w : World) (mode : Mode) (once : Bool) (n : String) :
    ∀ a ∈ (process_entry w mode once n).2,
      a ∈ probe_actions w n ∨
      (eligible w n = true ∧
        ((mode = .BEFORE_SUSPEND ∧
            (a = .system pause_cmd ∨ a ∈ (reset_clk_voltage w (device_path n)).2 ∨
              ∃ l, a = .cerr l)) ∨
          (mode = .AFTER_RESUME ∧
            (a ∈ (upload_pp_table w (device_path n) (entry_table w n)).2 ∨
              ∃ l, a = .cerr l)))) := by
  intro a ha
  rw [process_entry_eq] at ha
  by_cases ht : fetch_throws w n = true
  · rw [if_pos ht] at ha
    exact Or.inl ha
  · rw [if_neg ht] at ha
    by_cases he : eligible w n = true
    · rw [if_pos he] at ha
      cases mode with
      | UNKNOWN => exact Or.inl ha
      | BEFORE_SUSPEND =>
        simp only [List.mem_append, List.mem_singleton] at ha
        rcases ha with h | h | h | h
        · exact Or.inl h
        · refine Or.inr ⟨he, Or.inl ⟨rfl, Or.inl ?_⟩⟩
          split_ifs at h
          · simpa using h
          · cases h
        · exact Or.inr ⟨he, Or.inl ⟨rfl, Or.inr (Or.inl h)⟩⟩
        · exact Or.inr ⟨he, Or.inl ⟨rfl, Or.inr (Or.inr ⟨_, h⟩)⟩⟩
      | AFTER_RESUME =>
        simp only [List.mem_append, List.mem_singleton] at ha
        rcases ha with h | h | h
        · exact Or.inl h
        · exact Or.inr ⟨he, Or.inr ⟨rfl, Or.inl h⟩⟩
        · exact Or.inr ⟨he, Or.inr ⟨rfl, Or.inr ⟨_, h⟩⟩⟩
    · rw [if_neg he] at ha
      exact Or.inl ha

/-- The loop body performs the actions of the filters, whatever comes after. -/
theorem process_entry_probe (w : World) (mode : Mode) (once : Bool) (n : String) :
    ∀ a ∈ probe_actions w n, a ∈ (process_entry w mode once n).2 := by
  intro a ha
  rw [process_entry_eq]
  by_cases ht : fetch_throws w n = true
  · rw [if_pos ht]; exact ha
  · rw [if_neg ht]
    by_cases he : eligible w n = true
    · rw [if_pos he]
      cases mode with
      | UNKNOWN => exact ha
      | BEFORE_SUSPEND => exact List.mem_append_left _ ha
      | AFTER_RESUME => exact List.mem_append_left _ ha
    · rw [if_neg he]; exact ha

/-- An action of the loop is an action of the body on a listed entry, and the
loop performed every action of that run of the body. -/
theorem main_loop_mem (w : World) (mode : Mode) :
    ∀ (names : List String) (once : Bool), ∀ a ∈ (main_loop w mode names once).2,
      ∃ n ∈ names, ∃ once1, a ∈ (process_entry w mode once1 n).2 ∧
        ∀ b ∈ (process_entry w mode once1 n).2, b ∈ (main_loop w mode names once).2 := by
  intro names
  induction names with
  | nil => intro once a ha; cases ha
  | cons n rest ih =>
    intro once a ha
    rcases hp : process_entry w mode once n with ⟨r, acts⟩
    cases r with
    | none =>
      have hl : main_loop w mode (n :: rest) once = (none, acts) := by simp [main_loop, hp]
      rw [hl] at ha ⊢
      exact ⟨n, List.mem_cons_self _ _, once, by rw [hp]; exact ha, by rw [hp]; exact fun b hb => hb⟩
    | some once1 =>
      rw [main_loop_cons w mode n rest once once1 acts hp] at ha ⊢
      rcases List.mem_append.1 ha with h | h
      · exact ⟨n, List.mem_cons_self _ _, once, by rw [hp]; exact h,
          by rw [hp]; exact fun b hb => List.mem_append_left _ hb⟩
      · obtain ⟨m, hm, o, ho, hsub⟩ := ih once1 a h
        exact ⟨m, List.mem_cons_of_mem _ hm, o, ho, fun b hb => List.mem_append_right _ (hsub b hb)⟩

theorem main_actions (w : World) (a0 arg : String) :
    (main w [a0, arg]).2 = [] ∨
    (main w [a0, arg]).2 = (has_pp_override_mask w).2 ∨
    (main w [a0, arg]).2 = (has_pp_override_mask w).2 ++ [.directory_iterator drm_dir] ∨
    ∃ names tail, w.directory_iterator drm_dir = some names ∧
      (tail = [] ∨ tail = [Action.system resume_cmd]) ∧
      (main w [a0, arg]).2 = (has_pp_override_mask w).2 ++ [.directory_iterator drm_dir] ++
        (main_loop w (mode_of arg) names false).2 ++ tail := by
  unfold main
  simp only [List.length_cons, List.length_nil, ne_eq, not_true_eq_false, if_false]
  have harg : [a0, arg].getD 1 "" = arg := rfl
  have hmode : (if arg = "suspend" then Mode.BEFORE_SUSPEND
      else if arg = "resume" then Mode.AFTER_RESUME else Mode.UNKNOWN) = mode_of arg := rfl
  simp only [harg, hmode]
  split_ifs with h1 h2
  · exact Or.inl rfl
  · exact Or.inr (Or.inl rfl)
  · cases hdir : w.directory_iterator drm_dir with
    | none => exact Or.inr (Or.inr (Or.inl rfl))
    | some names =>
      cases ho : (main_loop w (mode_of arg) names false).1 with
      | none =>
        exact Or.inr (Or.inr (Or.inr ⟨names, [], rfl, Or.inl rfl, by simp only [ho, List.append_nil]⟩))
      | some once1 =>
        refine Or.inr (Or.inr (Or.inr ⟨names, (if mode_of arg = Mode.AFTER_RESUME ∧ once1 = true
            then [Action.system resume_cmd] else []), rfl, ?_, ?_⟩))
        · split_ifs
          · exact Or.inr rfl
          · exact Or.inl rfl
        · simp only [ho]

theorem eligible_iff (w : World) (n : String) :
    eligible w n = true ↔
      (w.is_directory (entry_path n) = true ∧ name_filter n = true ∧
        (is_vendor_amd w (device_path n)).1 = true ∧ (is_enabled w (device_path n)).1 = true ∧
        ∃ tbl, (fetch_pp_table w (device_path n)).1 = some tbl ∧ tbl.empty = false) := by
  unfold eligible
  cases htbl : (fetch_pp_table w (device_path n)).1 with
  | none => simp
  | some tbl =>
    simp only [Bool.and_eq_true, Bool.not_eq_true', Option.some.injEq, exists_eq_left']
    tauto

theorem entry_table_eq (w : World) (n : String) (tbl : Array)
    (h : (fetch_pp_table w (device_path n)).1 = some tbl) : entry_table w n = tbl := by
  simp [entry_table, h]

theorem process_entry_forms (w : World) (mode : Mode) (once : Bool) (n : String) :
    ∀ a ∈ (process_entry w mode once n).2, entry_action w mode n a := by
  intro a ha
  unfold entry_action
  rcases process_entry_mem w mode once n a ha with h | ⟨he, h⟩
  · rcases probe_actions_mem w n a h with h | ⟨h1, h2, h | ⟨h3, h | ⟨h4, h⟩⟩⟩
    · exact Or.inl h
    · exact Or.inr ⟨h1, h2, Or.inl (is_vendor_amd_actions w _ a h)⟩
    · exact Or.inr ⟨h1, h2, Or.inr ⟨h3, Or.inl (is_enabled_actions w _ a h)⟩⟩
    · exact Or.inr ⟨h1, h2, Or.inr ⟨h3, Or.inr ⟨h4, Or.inl (fetch_pp_table_actions w _ a h)⟩⟩⟩
  · obtain ⟨h1, h2, h3, h4, tbl, htbl, hne⟩ := (eligible_iff w n).1 he
    refine Or.inr ⟨h1, h2, Or.inr ⟨h3, Or.inr ⟨h4, ?_⟩⟩⟩
    rcases h with ⟨hm, h | h | h⟩ | ⟨hm, h | h⟩
    · exact Or.inr ⟨tbl, htbl, hne, Or.inr (Or.inl ⟨hm, Or.inl h⟩)⟩
    · refine Or.inr ⟨tbl, htbl, hne, Or.inr (Or.inl ⟨hm, Or.inr ?_⟩)⟩
      rcases reset_clk_voltage_actions w (device_path n) with hr | hr <;> rw [hr] at h <;>
        simp at h <;> tauto
    · exact Or.inr ⟨tbl, htbl, hne, Or.inl h⟩
    · rw [entry_table_eq w n tbl htbl] at h
      rcases upload_pp_table_actions w _ _ a h with h | h | h
      · exact Or.inr ⟨tbl, htbl, hne, Or.inr (Or.inr ⟨hm, Or.inl h⟩)⟩
      · exact Or.inr ⟨tbl, htbl, hne, Or.inr (Or.inr ⟨hm, Or.inr h⟩)⟩
      · exact Or.inl (Or.inr (Or.inr (Or.inr (Or.inr h))))
    · exact Or.inr ⟨tbl, htbl, hne, Or.inl h⟩

theorem mode_of_suspend (arg : String) (h : mode_of arg = .BEFORE_SUSPEND) : arg = "suspend" := by
  unfold mode_of at h
  split_ifs at h with h1
  exact h1

theorem mode_of_resume (arg : String) (h : mode_of arg = .AFTER_RESUME) : arg = "resume" := by
  unfold mode_of at h
  split_ifs at h with h1 h2
  exact h2

theorem main_mem (w : World) (argv : List String) :
    ∀ a ∈ (main w argv).2,
      a = .ifstream_open ppfeaturemask_path ∨ a = .ifstream_extract ppfeaturemask_path ∨
      a = .directory_iterator drm_dir ∨ a = .system resume_cmd ∨
      ∃ a0 arg names n, argv = [a0, arg] ∧ w.directory_iterator drm_dir = some names ∧
        n ∈ names ∧ entry_action w (mode_of arg) n a ∧
        ∀ b ∈ probe_actions w n, b ∈ (main w argv).2 := by
  intro a ha
  by_cases hlen : argv.length ≠ 2
  · simp [main, hlen] at ha
  · obtain ⟨a0, arg, rfl⟩ : ∃ a0 arg, argv = [a0, arg] := by
      match argv, hlen with
      | [x, y], _ => exact ⟨x, y, rfl⟩
      | [], h => simp at h
      | [_], h => simp at h
      | _ :: _ :: _ :: _, h => simp at h
    rcases main_actions w a0 arg with h | h | h | ⟨names, tail, hdir, htail, h⟩
    · rw [h] at ha; cases ha
    · rw [h] at ha
      rcases has_pp_override_mask_actions w a ha with h | h
      · exact Or.inl h
      · exact Or.inr (Or.inl h)
    · rw [h] at ha
      rcases List.mem_append.1 ha with h | h
      · rcases has_pp_override_mask_actions w a h with h | h
        · exact Or.inl h
        · exact Or.inr (Or.inl h)
      · exact Or.inr (Or.inr (Or.inl (by simpa using h)))
    · rw [h] at ha
      simp only [List.mem_append, List.mem_singleton] at ha
      rcases ha with ((h1 | h1) | h1) | h1
      · rcases has_pp_override_mask_actions w a h1 with h1 | h1
        · exact Or.inl h1
        · exact Or.inr (Or.inl h1)
      · exact Or.inr (Or.inr (Or.inl h1))
      · obtain ⟨n, hn, once1, hp, hsub⟩ := main_loop_mem w (mode_of arg) names false a h1
        refine Or.inr (Or.inr (Or.inr (Or.inr ⟨a0, arg, names, n, rfl, hdir, hn,
          process_entry_forms w _ once1 n a hp, ?_⟩)))
        intro b hb
        rw [h]
        apply List.mem_append_left
        apply List.mem_append_right
        exact hsub b (process_entry_probe w _ once1 n b hb)
      · rcases htail with ht | ht
        · rw [ht] at h1; cases h1
        · rw [ht] at h1
          exact Or.inr (Or.inr (Or.inr (Or.inl (by simpa using h1))))

/-- A write access of a run is on a listed entry that passed every filter, and
the run performed the actions of the filters on that entry. -/
theorem trace_write_probe (w : World) (argv : List String) (a : Action)
    (ha : a ∈ (main w argv).2) (hw : a.is_write_access = true) :
    ∃ names n tbl, w.directory_iterator drm_dir = some names ∧ n ∈ names ∧
      w.is_directory (entry_path n) = true ∧ name_filter n = true ∧
      (is_vendor_amd w (device_path n)).1 = true ∧ (is_enabled w (device_path n)).1 = true ∧
      (fetch_pp_table w (device_path n)).1 = some tbl ∧ tbl.empty = false ∧
      ((∃ a0, argv = [a0, "suspend"] ∧
          (a = .sys_open (device_path n ++ "/pp_od_clk_voltage") .O_WRONLY ∨
           a = .write (device_path n ++ "/pp_od_clk_voltage") [some byte_r])) ∨
       (∃ a0, argv = [a0, "resume"] ∧
          (a = .sys_open (device_path n ++ "/pp_table") .O_WRONLY ∨
           a = .write (device_path n ++ "/pp_table") tbl.payload))) ∧
      ∀ b ∈ probe_actions w n, b ∈ (main w argv).2 := by
  rcases main_mem w argv a ha with h | h | h | h | ⟨a0, arg, names, n, rfl, hdir, hn, hform, hsub⟩
  · subst h; simp [Action.is_write_access] at hw
  · subst h; simp [Action.is_write_access] at hw
  · subst h; simp [Action.is_write_access] at hw
  · subst h; simp [Action.is_write_access] at hw
  · rcases hform with h | ⟨h1, h2, hv | ⟨h3, he | ⟨h4, hf | ⟨tbl, htbl, hne, hb⟩⟩⟩⟩
    · subst h; simp [Action.is_write_access] at hw
    · rcases hv with h | h <;> subst h <;> simp [Action.is_write_access] at hw
    · rcases he with h | h <;> subst h <;> simp [Action.is_write_access] at hw
    · rcases hf with h | h | h | h | h <;> subst h <;> simp [Action.is_write_access] at hw
    · refine ⟨names, n, tbl, hdir, hn, h1, h2, h3, h4, htbl, hne, ?_, hsub⟩
      rcases hb with ⟨l, h⟩ | ⟨hm, h | h | h | h⟩ | ⟨hm, h | h⟩
      · subst h; simp [Action.is_write_access] at hw
      · subst h; simp [Action.is_write_access] at hw
      · exact Or.inl ⟨a0, by rw [mode_of_suspend arg hm], Or.inl h⟩
      · exact Or.inl ⟨a0, by rw [mode_of_suspend arg hm], Or.inr h⟩
      · subst h; simp [Action.is_write_access] at hw
      · exact Or.inr ⟨a0, by rw [mode_of_resume arg hm], Or.inl h⟩
      · exact Or.inr ⟨a0, by rw [mode_of_resume arg hm], Or.inr h⟩

theorem trace_write (w : World) (argv : List String) (a : Action)
    (ha : a ∈ (main w argv).2) (hw : a.is_write_access = true) :
    ∃ names n tbl, w.directory_iterator drm_dir = some names ∧ n ∈ names ∧
      w.is_directory (entry_path n) = true ∧ name_filter n = true ∧
      (is_vendor_amd w (device_path n)).1 = true ∧ (is_enabled w (device_path n)).1 = true ∧
      (fetch_pp_table w (device_path n)).1 = some tbl ∧ tbl.empty = false ∧
      ((∃ a0, argv = [a0, "suspend"] ∧
          (a = .sys_open (device_path n ++ "/pp_od_clk_voltage") .O_WRONLY ∨
           a = .write (device_path n ++ "/pp_od_clk_voltage") [some byte_r])) ∨
       (∃ a0, argv = [a0, "resume"] ∧
          (a = .sys_open (device_path n ++ "/pp_table") .O_WRONLY ∨
           a = .write (device_path n ++ "/pp_table") tbl.payload))) := by
  obtain ⟨names, n, tbl, h1, h2, h3, h4, h5, h6, h7, h8, h9, _⟩ :=
    trace_write_probe w argv a ha hw
  exact ⟨names, n, tbl, h1, h2, h3, h4, h5, h6, h7, h8, h9⟩

theorem trace_write_path (w : World) (argv : List String) (a : Action) (p : String)
    (ha : a ∈ (main w argv).2) (hp : a.write_path = some p) :
    ∃ n, eligible w n = true ∧
      (p = device_path n ++ "/pp_od_clk_voltage" ∨ p = device_path n ++ "/pp_table") := by
  have hw : a.is_write_access = true := by
    cases a <;> simp [Action.write_path] at hp <;> try rfl
    case sys_open q f =>
      cases f
      · simp [Action.write_path] at hp
      · rfl
  obtain ⟨names, n, tbl, _, _, h1, h2, h3, h4, htbl, hne, h⟩ := trace_write w argv a ha hw
  refine ⟨n, (eligible_iff w n).2 ⟨h1, h2, h3, h4, tbl, htbl, hne⟩, ?_⟩
  rcases h with ⟨_, _, h | h⟩ | ⟨_, _, h | h⟩ <;> subst h <;>
    simp only [Action.write_path, Option.some.injEq] at hp
  · exact Or.inl hp.symm
  · exact Or.inl hp.symm
  · exact Or.inr hp.symm
  · exact Or.inr hp.symm

theorem fetch_read_action (w : World) (n : String) (tbl : Array)
    (h : (fetch_pp_table w (device_path n)).1 = some tbl) (hne : tbl.empty = false) :
    tbl.payload = (bytes_read w (device_path n ++ "/pp_table")
        (w.lseek_end (device_path n ++ "/pp_table"))).map some ∧
    Action.read (device_path n ++ "/pp_table") (w.lseek_end (device_path n ++ "/pp_table")) ∈
      (fetch_pp_table w (device_path n)).2 ∧
    0 < read_result w (device_path n ++ "/pp_table")
      (w.lseek_end (device_path n ++ "/pp_table")) := by
  rcases fetch_pp_table_cases w (device_path n) with
    ⟨_, ⟨a, ha, hsz⟩, _⟩ | ⟨_, _, hf⟩ | ⟨_, _, _, ⟨a, ha, hsz⟩, _⟩ | ⟨_, _, h4, hf⟩
  · rw [h] at ha
    cases ha
    simp [Array.empty, hsz] at hne
  · rw [hf] at h
    cases h
  · rw [h] at ha
    cases ha
    simp [Array.empty, hsz] at hne
  · rw [hf] at h ⊢
    cases h
    exact ⟨fetched_table_payload w _ h4, by simp, h4⟩

theorem probe_actions_fetch (w : World) (n : String) (h : eligible w n = true) :
    ∀ a ∈ (fetch_pp_table w (device_path n)).2, a ∈ probe_actions w n := by
  obtain ⟨h1, h2, h3, h4, _⟩ := (eligible_iff w n).1 h
  intro a ha
  unfold probe_actions
  simp [h1, h2, h3, h4, ha]

/-- C5: `upload_pp_table` on an empty buffer returns false and performs no
action.  On a buffer that is not empty, a failed open gives false and no write;
after a successful open there is exactly one write, of the first `size()` bytes
of the buffer, and the result is true exactly when the write returns `size()`.
In a resume run every write is on the table file of a listed device and its
payload is, byte for byte and in length, what the read of `fetch_pp_table`
transferred from that file in the same run. -/
theorem C5_upload_writes_fetched_bytes (w : World) (path : String) (data : Array) (a0 : String) :
    (data.empty = true → upload_pp_table w path data = (false, [])) ∧
    (data.empty = false → w.sys_open (path ++ "/pp_table") .O_WRONLY = false →
      upload_pp_table w path data = (false, [.sys_open (path ++ "/pp_table") .O_WRONLY])) ∧
    (data.empty = false → w.sys_open (path ++ "/pp_table") .O_WRONLY = true →
      (upload_pp_table w path data).2 =
        [.sys_open (path ++ "/pp_table") .O_WRONLY,
         .write (path ++ "/pp_table") ((data.data.getD []).take data.size.toNat),
         .close (path ++ "/pp_table")] ∧
      ((upload_pp_table w path data).1 = true ↔
        w.write (path ++ "/pp_table") ((data.data.getD []).take data.size.toNat) = data.size)) ∧
    (∀ file payload, Action.write file payload ∈ (main w [a0, "resume"]).2 →
      ∃ names n, w.directory_iterator drm_dir = some names ∧ n ∈ names ∧
        file = device_path n ++ "/pp_table" ∧
        payload = (bytes_read w file (w.lseek_end file)).map some ∧
        (payload.length : Int) = read_result w file (w.lseek_end file) ∧
        Action.read file (w.lseek_end file) ∈ (main w [a0, "resume"]).2) := by
  refine ⟨?_, ?_, ?_, ?_⟩
  · intro h
    simp [upload_pp_table, h]
  · intro h ho
    simp [upload_pp_table, h, ho]
  · intro h ho
    simp [upload_pp_table, h, ho, Array.payload]
  · intro file payload hmem
    obtain ⟨names, n, tbl, hdir, hn, h1, h2, h3, h4, htbl, hne, hform, hsub⟩ :=
      trace_write_probe w [a0, "resume"] _ hmem rfl
    have hres : ("resume" = "suspend") = False := by decide
    rcases hform with ⟨b0, hb, _⟩ | ⟨b0, _, h | h⟩
    · simp [hres] at hb
    · cases h
    · simp only [Action.write.injEq] at h
      obtain ⟨hfile, hpay⟩ := h
      obtain ⟨hp, hread, hpos⟩ := fetch_read_action w n tbl htbl hne
      have hel : eligible w n = true := (eligible_iff w n).2 ⟨h1, h2, h3, h4, tbl, htbl, hne⟩
      refine ⟨names, n, hdir, hn, hfile, ?_, ?_, ?_⟩
      · rw [hpay, hfile, hp]
      · rw [hpay, hfile, hp, List.length_map, read_result_pos w _ _ hpos]
      · rw [hfile]
        exact hsub _ (probe_actions_fetch w n hel _ hread)

/-! ## The fetch: when it reads, when it throws, what it returns -/

/-- C7 (amended): if the open fails, the size found by seeking to the end is not
positive, or the seek back does not return 0, `fetch_pp_table` returns an empty
buffer and makes no read.  The read is made exactly when those three steps
succeed and the allocation of the buffer is served; when it is not served the
function throws.  When the read is made a buffer is returned; it is empty exactly
when the read returned a value that is not positive, and otherwise, also when
the read transferred fewer bytes than the size found, its logical size is the
number of bytes read, at most the size found, and its content is the bytes read.
A returned buffer that is empty is never uploaded: no run of `main` opens for
writing or writes the table file of that entry. -/
theorem C7_fetch_pp_table_empty_iff_step_fails (w : World) (path : String) :
    ((w.sys_open (path ++ "/pp_table") .O_RDONLY = false ∨
        w.lseek_end (path ++ "/pp_table") ≤ 0 ∨ w.lseek_set (path ++ "/pp_table") ≠ 0) →
      (∃ a, (fetch_pp_table w path).1 = some a ∧ a.empty = true) ∧
      Action.read (path ++ "/pp_table") (w.lseek_end (path ++ "/pp_table")) ∉
        (fetch_pp_table w path).2) ∧
    (Action.read (path ++ "/pp_table") (w.lseek_end (path ++ "/pp_table")) ∈
        (fetch_pp_table w path).2 ↔
      (fetch_reaches_allocation w (path ++ "/pp_table") ∧
        w.operator_new (w.lseek_end (path ++ "/pp_table")) = true)) ∧
    ((fetch_pp_table w path).1 = none ↔
      (fetch_reaches_allocation w (path ++ "/pp_table") ∧
        w.operator_new (w.lseek_end (path ++ "/pp_table")) = false)) ∧
    (Action.read (path ++ "/pp_table") (w.lseek_end (path ++ "/pp_table")) ∈
        (fetch_pp_table w path).2 →
      ∃ a, (fetch_pp_table w path).1 = some a ∧
        (a.empty = true ↔
          read_result w (path ++ "/pp_table") (w.lseek_end (path ++ "/pp_table")) ≤ 0) ∧
        (a.empty = false →
          a.size = read_result w (path ++ "/pp_table") (w.lseek_end (path ++ "/pp_table")) ∧
          a.size ≤ w.lseek_end (path ++ "/pp_table") ∧
          a.payload =
            (bytes_read w (path ++ "/pp_table") (w.lseek_end (path ++ "/pp_table"))).map
              some)) ∧
    (∀ (argv : List String) (n : String) (tbl : Array),
      (fetch_pp_table w (device_path n)).1 = some tbl → tbl.empty = true →
      ∀ a ∈ (main w argv).2,
        a ≠ .sys_open (device_path n ++ "/pp_table") .O_WRONLY ∧
        ∀ payload, a ≠ .write (device_path n ++ "/pp_table") payload) := by
  have hB : ¬ Action.read (path ++ "/pp_table") (w.lseek_end (path ++ "/pp_table")) ∈
      [Action.sys_open (path ++ "/pp_table") .O_RDONLY,
        Action.lseek (path ++ "/pp_table") 0 .SEEK_END,
        Action.lseek (path ++ "/pp_table") 0 .SEEK_SET] := by simp
  refine ⟨?_, ?_, ?_, ?_, ?_⟩
  · intro hbad
    have hno : ¬ fetch_reaches_allocation w (path ++ "/pp_table") := by
      rintro ⟨h1, h2, h3⟩
      rcases hbad with h | h | h
      · rw [h1] at h; cases h
      · omega
      · exact h h3
    rcases fetch_pp_table_cases w path with
      ⟨_, ⟨a, ha, hsz⟩, hnr⟩ | ⟨hr, _⟩ | ⟨hr, _⟩ | ⟨hr, _⟩
    · exact ⟨⟨a, ha, by simp [Array.empty, hsz]⟩, hnr⟩
    · exact absurd hr hno
    · exact absurd hr hno
    · exact absurd hr hno
  · rcases fetch_pp_table_cases w path with
      ⟨hno, _, hnr⟩ | ⟨hr, hn, hf⟩ | ⟨hr, hn, _, _, hrd⟩ | ⟨hr, hn, _, hf⟩
    · exact ⟨fun h => absurd h hnr, fun h => absurd h.1 hno⟩
    · rw [hf]
      exact ⟨fun h => absurd h hB, fun h => by rw [hn] at h; cases h.2⟩
    · exact ⟨fun _ => ⟨hr, hn⟩, fun _ => hrd⟩
    · rw [hf]
      exact ⟨fun _ => ⟨hr, hn⟩, fun _ => by simp⟩
  · rcases fetch_pp_table_cases w path with
      ⟨hno, ⟨a, ha, _⟩, _⟩ | ⟨hr, hn, hf⟩ | ⟨hr, hn, _, ⟨a, ha, _⟩, _⟩ | ⟨hr, hn, _, hf⟩
    · rw [ha]
      exact ⟨(fun h => by cases h), fun h => absurd h.1 hno⟩
    · rw [hf]
      exact ⟨fun _ => ⟨hr, hn⟩, fun _ => rfl⟩
    · rw [ha]
      exact ⟨(fun h => by cases h), fun h => by rw [hn] at h; cases h.2⟩
    · rw [hf]
      exact ⟨(fun h => by cases h), fun h => by rw [hn] at h; cases h.2⟩
  · intro hread
    rcases fetch_pp_table_cases w path with
      ⟨_, _, hnr⟩ | ⟨_, _, hf⟩ | ⟨_, _, hle, ⟨a, ha, hsz⟩, _⟩ | ⟨_, _, h4, hf⟩
    · exact absurd hread hnr
    · rw [hf] at hread
      exact absurd hread hB
    · refine ⟨a, ha, ⟨fun _ => hle, fun _ => by simp [Array.empty, hsz]⟩, ?_⟩
      intro he
      simp [Array.empty, hsz] at he
    · refine ⟨_, by rw [hf], ?_, ?_⟩
      · constructor
        · intro he
          simp only [Array.empty, fetched_table, decide_eq_true_eq] at he
          omega
        · intro h
          omega
      · intro _
        have hle := bytes_read_le w (path ++ "/pp_table") (w.lseek_end (path ++ "/pp_table"))
        have heq := read_result_pos w _ _ h4
        refine ⟨rfl, ?_, fetched_table_payload w _ h4⟩
        show read_result w _ _ ≤ _
        omega
  · intro argv n tbl htbl hempty a ha
    have key : ∀ p, a.write_path = some p → p = device_path n ++ "/pp_table" → False := by
      intro p hp hpn
      obtain ⟨m, hm, h⟩ := trace_write_path w argv a p ha hp
      have hnm : n = m := by
        rcases h with h | h <;> rw [hpn] at h
        · exact absurd h.symm (clk_ne_table _ _)
        · exact device_file_inj _ _ _ h
      subst hnm
      obtain ⟨_, _, _, _, tbl1, htbl1, hne⟩ := (eligible_iff w n).1 hm
      rw [htbl] at htbl1
      cases htbl1
      rw [hempty] at hne
      cases hne
    constructor
    · intro h; subst h; exact key _ rfl rfl
    · intro payload h; subst h; exact key _ rfl rfl

/-! ## The name tests -/

theorem name_filter_iff (n : String) :
    name_filter n = true ↔
      ∃ ds, n.data = "card".data ++ ds ∧ ∀ c ∈ ds, isdigit c = true := by
  unfold name_filter
  simp only [Bool.and_eq_true, beq_iff_eq, Option.isNone_iff_eq_none, List.find?_eq_none,
    Bool.not_eq_true', Bool.not_eq_false]
  constructor
  · rintro ⟨h1, h2⟩
    refine ⟨n.data.drop 4, ?_, h2⟩
    rw [← h1, List.take_append_drop]
  · rintro ⟨ds, h1, h2⟩
    rw [h1]
    exact ⟨rfl, h2⟩

/-- C6 (code evaluated where the claim fails): the name tests accept the bare
name `card`, and the loop body goes on to open the vendor file of that entry.
The tests accept exactly the names made of `card` followed by any number of
digits, none included; `card0`, `card1`, `card10` pass and `cardX`,
`card0-DP-1`, `car`, `renderD128` do not. -/
theorem C6_name_tests_accept_bare_card :
    name_filter "card" = true ∧
    (∀ (w : World) (mode : Mode) (once : Bool), w.is_directory (entry_path "card") = true →
      Action.ifstream_open "/sys/class/drm/card/device/vendor" ∈
        (process_entry w mode once "card").2) ∧
    (∀ n : String, name_filter n = true ↔
      ∃ ds, n.data = "card".data ++ ds ∧ ∀ c ∈ ds, isdigit c = true) ∧
    name_filter "card0" = true ∧ name_filter "card1" = true ∧ name_filter "card10" = true ∧
    name_filter "cardX" = false ∧ name_filter "card0-DP-1" = false ∧
    name_filter "car" = false ∧ name_filter "renderD128" = false := by
  refine ⟨by decide, ?_, name_filter_iff, by decide, by decide, by decide, by decide, by decide,
    by decide, by decide⟩
  intro w mode once hd
  apply process_entry_probe
  have hf : name_filter "card" = true := by decide
  unfold probe_actions
  have hmem : Action.ifstream_open "/sys/class/drm/card/device/vendor" ∈
      (is_vendor_amd w (device_path "card")).2 := by
    have hpath : device_path "card" ++ "/vendor" = "/sys/class/drm/card/device/vendor" := by
      decide
    unfold is_vendor_amd
    rw [hpath]
    cases w.ifstream "/sys/class/drm/card/device/vendor" <;> simp
  simp [hd, hf, hmem]

/-! ## The statements at concrete inputs -/

/-- C4 at a concrete input: two eligible cards among five entries, no fetch
throwing. -/
theorem C4_witness :
    (has_pp_override_mask world_two_cards).1 = true ∧
    world_two_cards.directory_iterator drm_dir =
      some ["card0", "cardX", "card2", "card1", "version"] ∧
    (∀ n ∈ ["card0", "cardX", "card2", "card1", "version"],
      fetch_throws world_two_cards n = false) ∧
    1 ≤ (["card0", "cardX", "card2", "card1", "version"].filter
      (eligible world_two_cards)).length ∧
    (main world_two_cards ["amdgpu-workaround", "suspend"]).1 = some 0 ∧
    (main world_two_cards ["amdgpu-workaround", "suspend"]).2.count (.system pause_cmd) = 1 ∧
    (main world_two_cards ["amdgpu-workaround", "suspend"]).2.count (.system resume_cmd) = 0 ∧
    (main world_two_cards ["amdgpu-workaround", "resume"]).2.count (.system resume_cmd) = 1 ∧
    (main world_two_cards ["amdgpu-workaround", "resume"]).2.count (.system pause_cmd) = 0 :=
  have h0 := C4_pause_and_resume_commands world_two_cards "amdgpu-workaround"
    ["card0", "cardX", "card2", "card1", "version"] (by decide) (by decide)
  have h := (h0.2.1 (by decide)).2 (by decide)
  ⟨by decide, by decide, by decide, by decide, h0.1.1.2 (by decide), h.2.1, h.2.2.1,
    h.2.2.2.2.1, h.2.2.2.2.2⟩

/-- C5 at a concrete input: the resume run writes to `card0` the three bytes
its read transferred. -/
theorem C5_witness :
    Action.write "/sys/class/drm/card0/device/pp_table" [some 1, some 2, some 3] ∈
      (main world_two_cards ["amdgpu-workaround", "resume"]).2 ∧
    bytes_read world_two_cards "/sys/class/drm/card0/device/pp_table" 4096 = [1, 2, 3] ∧
    ∃ names n, world_two_cards.directory_iterator drm_dir = some names ∧ n ∈ names ∧
      "/sys/class/drm/card0/device/pp_table" = device_path n ++ "/pp_table" ∧
      [some 1, some 2, some 3] =
        (bytes_read world_two_cards "/sys/class/drm/card0/device/pp_table"
          (world_two_cards.lseek_end "/sys/class/drm/card0/device/pp_table")).map some ∧
      (([some 1, some 2, some 3] : List (Option Byte)).length : Int) =
        read_result world_two_cards "/sys/class/drm/card0/device/pp_table"
          (world_two_cards.lseek_end "/sys/class/drm/card0/device/pp_table") ∧
      Action.read "/sys/class/drm/card0/device/pp_table"
          (world_two_cards.lseek_end "/sys/class/drm/card0/device/pp_table") ∈
        (main world_two_cards ["amdgpu-workaround", "resume"]).2 :=
  ⟨by decide, by decide,
    (C5_upload_writes_fetched_bytes world_two_cards "" {} "amdgpu-workaround").2.2.2
      "/sys/class/drm/card0/device/pp_table" [some 1, some 2, some 3] (by decide)⟩

/-- C7 at a concrete input: the partial read of 3 bytes out of 8. -/
theorem C7_witness :
    Action.read ("/sys/class/drm/card0/device" ++ "/pp_table")
        (world_partial_read.lseek_end ("/sys/class/drm/card0/device" ++ "/pp_table")) ∈
      (fetch_pp_table world_partial_read "/sys/class/drm/card0/device").2 ∧
    ∃ a, (fetch_pp_table world_partial_read "/sys/class/drm/card0/device").1 = some a ∧
      a.empty = false ∧ a.size = 3 ∧ a.payload = [some 1, some 2, some 3] := by
  have hread : Action.read ("/sys/class/drm/card0/device" ++ "/pp_table")
        (world_partial_read.lseek_end ("/sys/class/drm/card0/device" ++ "/pp_table")) ∈
      (fetch_pp_table world_partial_read "/sys/class/drm/card0/device").2 := by decide
  obtain ⟨a, ha, _, hne⟩ :=
    (C7_fetch_pp_table_empty_iff_step_fails world_partial_read
      "/sys/class/drm/card0/device").2.2.2.1 hread
  have hsome : (fetch_pp_table world_partial_read "/sys/class/drm/card0/device").1 =
      some (fetched_table world_partial_read "/sys/class/drm/card0/device/pp_table") := by
    decide
  rw [hsome] at ha
  cases ha
  have he : (fetched_table world_partial_read
      "/sys/class/drm/card0/device/pp_table").empty = false := by decide
  obtain ⟨h1, _, h3⟩ := hne he
  exact ⟨hread, _, hsome, he, h1.trans (by decide), h3.trans (by decide)⟩

/-- C8 at a concrete input: `allocate(4)`, `set_size(5)` (refused),
`set_size(3)`, `allocate(2)` (refused) run to the end and leave size 3 and
capacity 4. -/
theorem C8_witness :
    (Array.calls {} (fun _ => true)
      [.allocate 4, .set_size 5, .set_size 3, .allocate 2]).1 =
      { m_data := some [none, none, none, none], m_capacity := 4, m_size := 3 } ∧
    (Array.calls {} (fun _ => true)
      [.allocate 4, .set_size 5, .set_size 3, .allocate 2]).2 = true :=
  ⟨by decide,
    C8_set_size_contract_and_invariant.2.1 (fun _ => true)
      [.allocate 4, .set_size 5, .set_size 3, .allocate 2]
      (by
        intro n hn
        simp only [List.mem_cons, ArrayCall.allocate.injEq, List.mem_singleton, reduceCtorEq,
          false_or, List.not_mem_nil, or_false] at hn
        exact ⟨by omega, rfl⟩)⟩

/-- C10 at a concrete input: `2` in the enable file, `0x1ffffffff` as feature
mask, `0x11002` as vendor id. -/
theorem C10_witness :
    (is_enabled world_odd_text "/sys/class/drm/card0/device").1 = true ∧
    (has_pp_override_mask world_odd_text).1 = true ∧
    (is_vendor_amd world_odd_text "/sys/class/drm/card0/device").1 = false :=
  have h := C10_accessors_on_malformed_content world_odd_text "/sys/class/drm/card0/device"
  ⟨h.2.2.2.2.2.2.1 "2" false 2 (by decide) (by decide),
    (h.2.2.2.2.2.2.2.1 "0x1ffffffff" false 0x1ffffffff (by decide) (by decide)).2 (by decide),
    (h.2.2.2.2.2.2.2.2 "0x11002" false 0x11002 (by decide) (by decide)).2.1 (by decide)⟩

end AmdgpuWorkaround
